import Mathlib

/-!
Verification of the meet_bot sync-and-notify pipeline.

Shallow embedding of the core of the repository:
  * `app/db/models.py`        — the `User`, `Meeting`, `Notification` rows;
  * `app/tasks/scheduler.py`  — `_upsert_meeting`, `_ensure_notification`,
    `sync_google_events`, `process_notifications`;
  * `app/bot/handlers.py`     — `on_snooze`, `on_ack` (their store effect);
  * `app/calendar/base.py`    — `UnifiedEvent`;
  * `app/calendar/google.py`  — `_parse_google_datetime` and the
    item-to-`UnifiedEvent` loop of `GoogleCalendarProvider.get_events`.

The database is modelled as lists of rows plus the autoincrement counters.
UTC instants are modelled as `Int` (seconds since the epoch), so
`timedelta(days=1)` is `86400`, `timedelta(hours=1)` is `3600` and
`timedelta(minutes=m)` is `60 * m`.
-/

namespace MeetBot

/-- A UTC instant, seconds since the epoch. -/
abbrev Instant := Int

/-- Row of the `users` table (`app/db/models.py`, class `User`). -/
structure User where
  id : Nat
  tg_id : Option Int
  timezone : Option String
deriving Repr, DecidableEq

/-- Row of the `meetings` table (`app/db/models.py`, class `Meeting`).
`created_at` / `updated_at` are server-side insert defaults never read by the
core pipeline and are omitted. -/
structure Meeting where
  id : Nat
  user_id : Nat
  title : Option String
  start_at : Option Instant
  end_at : Option Instant
  location : Option String
  description : Option String
  external_id : Option String
deriving Repr, DecidableEq

/-- Row of the `notifications` table (`app/db/models.py`, class `Notification`). -/
structure Notification where
  id : Nat
  user_id : Nat
  meeting_id : Option Nat
  scheduled_at : Option Instant
  sent_at : Option Instant
  status : Option String
  channel : Option String
deriving Repr, DecidableEq

/-- `app/calendar/base.py`, class `UnifiedEvent`.  Note that both `start_at`
and `end_at` are required (`Field(...)`) pydantic fields: an event cannot be
constructed with a missing end. -/
structure UnifiedEvent where
  id : String
  title : Option String
  start_at : Instant
  end_at : Instant
  description : Option String
  location : Option String
deriving Repr, DecidableEq

/-- The persistent store: the three tables of interest plus the autoincrement
primary-key counters that `session.flush()` / `commit` draw fresh ids from. -/
structure Store where
  users : List User
  meetings : List Meeting
  notifications : List Notification
  nextMeetingId : Nat
  nextNotifId : Nat
deriving Repr, DecidableEq

/-! ## Reconciler (`app/tasks/scheduler.py`) -/

/-- `timedelta(days=1)` in seconds: the first reminder offset. -/
def dayOffset : Instant := 86400

/-- `timedelta(hours=1)` in seconds: the second reminder offset. -/
def hourOffset : Instant := 3600

/-- The `select(Meeting).where(Meeting.user_id == user.id,
Meeting.external_id == event_id)` lookup followed by `scalar_one_or_none()`.
`scalar_one_or_none` assumes at most one matching row (it raises otherwise);
under the key-uniqueness invariant carried by the theorems below, the first
match is the only match. -/
def findMeeting (s : Store) (userId : Nat) (eventId : String) : Option Meeting :=
  s.meetings.find? (fun m => m.user_id == userId && m.external_id == some eventId)

/-- Overwriting the mutable fields of a fetched `Meeting` row, as the `else`
branch of `_upsert_meeting` does by attribute assignment. -/
def setFields (m : Meeting) (title : Option String) (start_at : Instant)
    (end_at : Option Instant) (location : Option String)
    (description : Option String) : Meeting :=
  { m with
    title := title, start_at := some start_at, end_at := end_at,
    location := location, description := description }

/-- Overwrite the mutable fields of the meeting row with id `mid`. -/
def overwriteAt (s : Store) (mid : Nat) (title : Option String)
    (start_at : Instant) (end_at : Option Instant) (location : Option String)
    (description : Option String) : Store :=
  { s with meetings := s.meetings.map (fun m =>
      if m.id = mid then setFields m title start_at end_at location description
      else m) }

/-- `_upsert_meeting` (`app/tasks/scheduler.py` lines 17–49).  Returns the new
store together with the id of the upserted meeting (the code returns the ORM
object; only its `id` is used afterwards).  The insert branch models
`session.add` + `session.flush()` assigning the next autoincrement id. -/
def upsert_meeting (s : Store) (userId : Nat) (event_id : String)
    (title : Option String) (start_at : Instant) (end_at : Option Instant)
    (location : Option String) (description : Option String) : Store × Nat :=
  match findMeeting s userId event_id with
  | some m => (overwriteAt s m.id title start_at end_at location description, m.id)
  | none =>
    let m : Meeting :=
      { id := s.nextMeetingId, user_id := userId, title := title,
        start_at := some start_at, end_at := end_at, location := location,
        description := description, external_id := some event_id }
    ({ s with
       meetings := s.meetings ++ [m],
       nextMeetingId := s.nextMeetingId + 1 }, m.id)

/-- The `select(Notification).where(meeting_id == .., scheduled_at == ..)`
existence check inside `_ensure_notification`. -/
def notifExists (s : Store) (meetingId : Nat) (scheduled_at : Instant) : Bool :=
  s.notifications.any (fun n =>
    n.meeting_id == some meetingId && n.scheduled_at == some scheduled_at)

/-- `_ensure_notification` (`app/tasks/scheduler.py` lines 52–74): skip fire
times at or before now, skip if a row for (meeting id, fire time) exists,
otherwise insert a fresh pending row with channel `"telegram"`. -/
def ensure_notification (s : Store) (now : Instant) (meetingId : Nat)
    (userId : Nat) (scheduled_at : Instant) : Store :=
  if scheduled_at ≤ now then s
  else if notifExists s meetingId scheduled_at then s
  else
    { s with
      notifications := s.notifications ++
        [{ id := s.nextNotifId, user_id := userId, meeting_id := some meetingId,
           scheduled_at := some scheduled_at, sent_at := none, status := none,
           channel := some "telegram" }],
      nextNotifId := s.nextNotifId + 1 }

/-- The body of the per-event loop of `sync_google_events`
(`app/tasks/scheduler.py` lines 93–106): upsert the meeting, then ensure the
day-before and hour-before reminders. -/
def reconcile_event (s : Store) (now : Instant) (userId : Nat)
    (e : UnifiedEvent) : Store :=
  let p := upsert_meeting s userId e.id e.title e.start_at (some e.end_at)
    e.location e.description
  let s1 := ensure_notification p.1 now p.2 userId (e.start_at - dayOffset)
  ensure_notification s1 now p.2 userId (e.start_at - hourOffset)

/-- The per-account part of `sync_google_events`: fold the event loop over the
provider's output for one user. -/
def reconcile_account (s : Store) (now : Instant) (userId : Nat)
    (events : List UnifiedEvent) : Store :=
  events.foldl (fun st e => reconcile_event st now userId e) s

/-- The `for user in users` loop of `sync_google_events`
(`app/tasks/scheduler.py` lines 90–108).  `fetch` abstracts
`GoogleCalendarProvider.get_events`, which can raise (modelled as `.error`).
There is no `try`/`except` around the fetch, so an error propagates and the
loop never reaches `session.commit()`. -/
def sync_accounts (now : Instant)
    (fetch : Nat → Except String (List UnifiedEvent)) :
    Store → List Nat → Except String Store
  | s, [] => .ok s
  | s, uid :: rest =>
    match fetch uid with
    | .error e => .error e
    | .ok events => sync_accounts now fetch (reconcile_account s now uid events) rest

/-- `sync_google_events` as seen from the persistent store: on success the
committed store, on an uncaught exception the `async with session_factory()`
block exits without `commit`, so the store is unchanged (rollback).
`userIds` are the users holding a Google OAuth token. -/
def sync_google_events (s : Store) (now : Instant)
    (fetch : Nat → Except String (List UnifiedEvent))
    (userIds : List Nat) : Store :=
  match sync_accounts now fetch s userIds with
  | .ok s' => s'
  | .error _ => s

/-! ## Dispatcher (`process_notifications`, `app/tasks/scheduler.py` 120–161) -/

/-- The SQL `WHERE` clause `Notification.scheduled_at <= now AND
Notification.sent_at IS NULL`; a NULL `scheduled_at` compares as unknown and
is not selected. -/
def isDue (n : Notification) (now : Instant) : Bool :=
  (match n.scheduled_at with
   | some t => decide (t ≤ now)
   | none => false) && n.sent_at == none

/-- One row of the three-way `select(Notification, User, Meeting)` result. -/
structure DispatchRow where
  notif : Notification
  user : User
  meeting : Meeting
deriving Repr, DecidableEq

/-- The inner joins `JOIN users ON users.id = notifications.user_id` and
`JOIN meetings ON meetings.id = notifications.meeting_id`: a notification with
no matching user or meeting row produces no result row. -/
def joinRow (s : Store) (n : Notification) : Option DispatchRow :=
  match s.users.find? (fun u => u.id == n.user_id),
        n.meeting_id.bind (fun mid => s.meetings.find? (fun m => m.id == mid)) with
  | some u, some m => some ⟨n, u, m⟩
  | _, _ => none

/-- `ORDER BY scheduled_at ASC` comparison on rows. -/
def schedLe (a b : Notification) : Bool :=
  match a.scheduled_at, b.scheduled_at with
  | some x, some y => decide (x ≤ y)
  | none, _ => true
  | some _, none => false

/-- The joined, filtered (not yet ordered or limited) due rows. -/
def dueRows (s : Store) (now : Instant) : List DispatchRow :=
  s.notifications.filterMap (fun n => if isDue n now then joinRow s n else none)

/-- `.limit(20)` in `process_notifications`. -/
def batch_limit : Nat := 20

/-- Insert a row into a list that is already sorted by `scheduled_at`. -/
def insertByTime (r : DispatchRow) : List DispatchRow → List DispatchRow
  | [] => [r]
  | x :: xs =>
    if schedLe r.notif x.notif then r :: x :: xs else x :: insertByTime r xs

/-- `ORDER BY scheduled_at ASC` realised as an insertion sort (any sorting of
the rows by `scheduled_at` models the SQL ordering). -/
def sortByTime : List DispatchRow → List DispatchRow
  | [] => []
  | x :: xs => insertByTime x (sortByTime xs)

/-- The full query of `process_notifications`: due rows, ordered by
`scheduled_at` ascending, limited to 20.  The batch is also the order in which
the loop sends the reminders. -/
def dispatchBatch (s : Store) (now : Instant) : List DispatchRow :=
  (sortByTime (dueRows s now)).take batch_limit

/-- Ids of the batch rows that are actually delivered: the user has a `tg_id`
(rows without one are skipped by `continue`) and `bot.send_message` did not
raise (`sendOk`; on an exception the `except` clause skips the row and the
batch continues). -/
def deliveredIds (batch : List DispatchRow) (sendOk : Nat → Bool) : List Nat :=
  (batch.filter (fun r => !(r.user.tg_id == none) && sendOk r.notif.id)).map
    (fun r => r.notif.id)

/-- `process_notifications` (`app/tasks/scheduler.py` lines 120–161) as seen
from the store: if no row is due, return at once; otherwise set
`sent_at = now` on every successfully delivered row and commit. -/
def process_notifications (s : Store) (now : Instant)
    (sendOk : Nat → Bool) : Store :=
  let rows := dispatchBatch s now
  if rows.isEmpty then s
  else
    let sent := deliveredIds rows sendOk
    { s with notifications := s.notifications.map (fun n =>
        if sent.contains n.id then { n with sent_at := some now } else n) }

/-- A sequence of dispatch passes, each with its own clock value and channel
behaviour. -/
def dispatchPasses (s : Store) (passes : List (Instant × (Nat → Bool))) : Store :=
  passes.foldl (fun st p => process_notifications st p.1 p.2) s

/-! ## Callback handlers (`app/bot/handlers.py`) -/

/-- `on_snooze` (`app/bot/handlers.py` lines 123–148) as seen from the store:
shift `scheduled_at` by `minutes` minutes and clear `sent_at`.  If no row with
this id exists the handler answers and returns without changes; if the row's
`scheduled_at` is NULL, `None + timedelta` raises `TypeError` and the session
exits without commit — in both cases the store is unchanged. -/
def on_snooze (s : Store) (notifId : Nat) (minutes : Int) : Store :=
  match s.notifications.find? (fun n => n.id == notifId) with
  | none => s
  | some notif =>
    match notif.scheduled_at with
    | none => s
    | some t =>
      { s with notifications := s.notifications.map (fun n =>
          if n.id = notifId then
            { n with scheduled_at := some (t + 60 * minutes), sent_at := none }
          else n) }

/-- `on_ack` (`app/bot/handlers.py` lines 774–796) as seen from the store:
set `status` to `"ack"` and `sent_at` to `notif.sent_at or now` (the old value
if set — a datetime is always truthy — otherwise the current instant). -/
def on_ack (s : Store) (notifId : Nat) (now : Instant) : Store :=
  match s.notifications.find? (fun n => n.id == notifId) with
  | none => s
  | some _ =>
    { s with notifications := s.notifications.map (fun n =>
        if n.id = notifId then
          { n with status := some "ack", sent_at := some (n.sent_at.getD now) }
        else n) }

/-! ## Google event parsing (`app/calendar/google.py`) -/

/-- The `"start"` / `"end"` object of a Google event item, with its string
payload classified by how `datetime.fromisoformat` / `date.fromisoformat`
treat it: `absent` covers a missing or falsy key (in particular the `{}`
produced by `it.get("end", {})` when the event has no end). -/
inductive GDateValue where
  | absent
  | dateTime (t : Instant)
  | badDateTime
  | date (midnightUtc : Instant)
  | badDate
deriving Repr, DecidableEq

/-- `_parse_google_datetime` (`app/calendar/google.py` lines 24–33): prefer a
truthy `dateTime`, then a truthy `date` (all-day, anchored at UTC midnight),
otherwise raise `ValueError("Invalid Google event datetime format")`.  An
unparseable payload raises inside `fromisoformat`. -/
def parse_google_datetime : GDateValue → Except String (Instant × Bool)
  | .dateTime t => .ok (t, false)
  | .badDateTime => .error "invalid isoformat string"
  | .date d => .ok (d, true)
  | .badDate => .error "invalid date isoformat string"
  | .absent => .error "Invalid Google event datetime format"

/-- One raw item of the Google `events().list` response, restricted to the
keys read by `get_events`.  The `"end"` key is named `endValue` because `end`
is a Lean keyword. -/
structure GoogleItem where
  id : String
  summary : Option String
  start : GDateValue
  endValue : GDateValue
  description : Option String
  location : Option String
deriving Repr, DecidableEq

/-- The unification loop of `GoogleCalendarProvider.get_events`
(`app/calendar/google.py` lines 90–109): parse each item's start and end;
any raise aborts the whole fetch (there is no `try` around the loop). -/
def unify_items : List GoogleItem → Except String (List UnifiedEvent)
  | [] => .ok []
  | it :: rest =>
    match parse_google_datetime it.start with
    | .error msg => .error msg
    | .ok s =>
      match parse_google_datetime it.endValue with
      | .error msg => .error msg
      | .ok e =>
        match unify_items rest with
        | .error msg => .error msg
        | .ok us =>
          .ok ({ id := it.id, title := it.summary, start_at := s.1,
                 end_at := e.1, description := it.description,
                 location := it.location } :: us)

/-! ## Store invariants

Well-formedness of a database state: primary keys are unique and below the
autoincrement counters (`id INTEGER PRIMARY KEY AUTOINCREMENT`), meetings are
unique per `(user_id, external_id)` natural key, and notifications are unique
per `(meeting_id, scheduled_at)` de-duplication key. -/

/-- Meeting primary keys are pairwise distinct. -/
def MIdsUnique (s : Store) : Prop :=
  s.meetings.Pairwise (fun a b => a.id ≠ b.id)

/-- The meeting autoincrement counter is ahead of every existing row. -/
def MFresh (s : Store) : Prop :=
  ∀ m ∈ s.meetings, m.id < s.nextMeetingId

/-- At most one meeting per `(user_id, external_id)` pair (rows with a NULL
`external_id` are outside the natural key). -/
def MKeyUnique (s : Store) : Prop :=
  s.meetings.Pairwise (fun a b =>
    a.user_id ≠ b.user_id ∨ a.external_id ≠ b.external_id ∨ a.external_id = none)

/-- Notification primary keys are pairwise distinct. -/
def NIdsUnique (s : Store) : Prop :=
  s.notifications.Pairwise (fun a b => a.id ≠ b.id)

/-- The notification autoincrement counter is ahead of every existing row. -/
def NFresh (s : Store) : Prop :=
  ∀ n ∈ s.notifications, n.id < s.nextNotifId

/-- At most one notification per `(meeting_id, scheduled_at)` pair (rows with
a NULL component are outside the de-duplication key). -/
def NKeyUnique (s : Store) : Prop :=
  s.notifications.Pairwise (fun a b =>
    a.meeting_id ≠ b.meeting_id ∨ a.scheduled_at ≠ b.scheduled_at ∨
    a.meeting_id = none ∨ a.scheduled_at = none)

/-- All well-formedness invariants together. -/
def StoreInv (s : Store) : Prop :=
  MIdsUnique s ∧ MFresh s ∧ MKeyUnique s ∧ NIdsUnique s ∧ NFresh s ∧ NKeyUnique s

/-- Number of meeting rows with the given `(user_id, external_id)` key. -/
def meetingCount (s : Store) (uid : Nat) (eid : String) : Nat :=
  (s.meetings.filter (fun m => m.user_id == uid && m.external_id == some eid)).length

/-- Number of notification rows with the given `(meeting_id, scheduled_at)`
key. -/
def notifCount (s : Store) (mid : Nat) (t : Instant) : Nat :=
  (s.notifications.filter (fun n =>
    n.meeting_id == some mid && n.scheduled_at == some t)).length

/-! ## Derived definitions, decidability instances and concrete fixtures -/

/-- The id of the meeting row holding the `(user_id, external_id)` key, if
any. -/
def meetingIdFor (s : Store) (uid : Nat) (eid : String) : Option Nat :=
  (findMeeting s uid eid).map (fun m => m.id)

/-- The last event in the list carrying the given external id, i.e. the
occurrence whose fields win the upsert. -/
def lastEvent : List UnifiedEvent → String → Option UnifiedEvent
  | [], _ => none
  | e :: rest, eid =>
    match lastEvent rest eid with
    | some e' => some e'
    | none => if e.id == eid then some e else none

instance (s : Store) : Decidable (MIdsUnique s) := by
  unfold MIdsUnique
  infer_instance

instance (s : Store) : Decidable (MFresh s) := by
  unfold MFresh
  infer_instance

instance (s : Store) : Decidable (MKeyUnique s) := by
  unfold MKeyUnique
  infer_instance

instance (s : Store) : Decidable (NIdsUnique s) := by
  unfold NIdsUnique
  infer_instance

instance (s : Store) : Decidable (NFresh s) := by
  unfold NFresh
  infer_instance

instance (s : Store) : Decidable (NKeyUnique s) := by
  unfold NKeyUnique
  infer_instance

instance (s : Store) : Decidable (StoreInv s) := by
  unfold StoreInv
  infer_instance

def wUser : User := ⟨1, some 7, none⟩

def wStore : Store := ⟨[wUser], [], [], 1, 1⟩

def wEvA : UnifiedEvent := ⟨"a", some "Standup", 200000, 203600, none, none⟩

def wEvB : UnifiedEvent :=
  ⟨"b", none, 400000, 403600, some "planning", some "Room 1"⟩

def wSentStore : Store :=
  ⟨[wUser], [⟨1, 1, some "Standup", some 200000, some 203600, none, none,
    some "a"⟩],
   [⟨1, 1, some 1, some 113600, some 113700, none, some "telegram"⟩], 2, 2⟩

def wDueStore : Store :=
  ⟨[wUser],
   [⟨1, 1, some "Standup", some 200000, some 203600, none, none, some "a"⟩],
   [⟨1, 1, some 1, some 113600, none, none, some "telegram"⟩,
    ⟨2, 1, some 1, some 196400, none, none, some "telegram"⟩], 2, 3⟩

def wFailStore : Store :=
  ⟨[wUser],
   [⟨1, 1, some "Standup", some 200000, some 203600, none, none, some "a"⟩],
   [⟨1, 1, some 1, some 113600, none, none, some "telegram"⟩,
    ⟨2, 1, some 1, some 196400, none, none, some "telegram"⟩], 2, 3⟩

def wSnoozeStore : Store :=
  ⟨[wUser],
   [⟨1, 1, some "Standup", some 200000, some 203600, none, none, some "a"⟩],
   [⟨1, 1, some 1, some 113600, some 113700, none, some "telegram"⟩], 2, 2⟩

/-- Account 1's fetch fails with an auth error while account 2's fetch
succeeds with one event. -/
def ceEvent : UnifiedEvent := ⟨"evt-b", some "Planning", 1000000, 1003600,
  none, none⟩

def ceUser2 : User := ⟨2, some 200, none⟩

def ceStore : Store := ⟨[wUser, ceUser2], [], [], 1, 1⟩

def ceFetch : Nat → Except String (List UnifiedEvent) := fun uid =>
  if uid = 1 then Except.error "google auth expired" else Except.ok [ceEvent]

/-- A Google item whose `"end"` object is missing: `it.get("end", {})` yields
`{}`, on which `_parse_google_datetime` raises `ValueError`. -/
def ceItemNoEnd : GoogleItem :=
  ⟨"evt-x", some "Standup", GDateValue.dateTime 1000, GDateValue.absent,
   none, none⟩

def ceStore9 : Store := ⟨[wUser], [], [], 1, 1⟩

def wEvA2 : UnifiedEvent := ⟨"a", some "Standup", 300000, 303600, none, none⟩

/-! ## Generic list helpers -/

theorem map_id_of_mem {α : Type} {f : α → α} {l : List α}
    (h : ∀ x ∈ l, f x = x) : l.map f = l := by
  induction l with
  | nil => rfl
  | cons a l ih =>
    simp only [List.map_cons, h a (List.mem_cons_self a l),
      ih (fun x hx => h x (List.mem_cons_of_mem a hx))]

theorem length_filter_le_one {α : Type} {R : α → α → Prop} {p : α → Bool}
    {l : List α} (hp : l.Pairwise R)
    (h : ∀ a b, p a = true → p b = true → R a b → False) :
    (l.filter p).length ≤ 1 := by
  have h2 := hp.filter p
  match hl : l.filter p with
  | [] => simp
  | [_] => simp
  | a :: b :: t =>
    exfalso
    rw [hl] at h2
    have hab : R a b := (List.pairwise_cons.mp h2).1 b (List.mem_cons_self b t)
    have ha : p a = true := List.of_mem_filter (hl ▸ List.mem_cons_self a (b :: t))
    have hb : p b = true :=
      List.of_mem_filter (hl ▸ List.mem_cons_of_mem a (List.mem_cons_self b t))
    exact h a b ha hb hab

theorem pairwise_ne_of_mem {α : Type} {R : α → α → Prop} {l : List α}
    (hsym : ∀ {a b : α}, R a b → R b a) (hp : l.Pairwise R)
    {a b : α} (ha : a ∈ l) (hb : b ∈ l) (hne : a ≠ b) : R a b := by
  induction l with
  | nil => cases ha
  | cons x l ih =>
    rcases List.pairwise_cons.mp hp with ⟨hx, hl⟩
    rcases List.mem_cons.mp ha with rfl | ha'
    · rcases List.mem_cons.mp hb with rfl | hb'
      · exact absurd rfl hne
      · exact hx b hb'
    · rcases List.mem_cons.mp hb with rfl | hb'
      · exact hsym (hx a ha')
      · exact ih hl ha' hb'

/-! ## Lemmas about `ensure_notification` -/

theorem ensure_notification_of_past {s : Store} {now : Instant} {mid uid : Nat}
    {t : Instant} (h : t ≤ now) :
    ensure_notification s now mid uid t = s := by
  simp [ensure_notification, h]

theorem ensure_notification_of_exists {s : Store} {now : Instant}
    {mid uid : Nat} {t : Instant} (h : notifExists s mid t = true) :
    ensure_notification s now mid uid t = s := by
  unfold ensure_notification
  split
  · rfl
  · simp [h]

theorem ensure_notification_users (s : Store) (now : Instant) (mid uid : Nat)
    (t : Instant) : (ensure_notification s now mid uid t).users = s.users := by
  unfold ensure_notification
  split
  · rfl
  · split <;> rfl

theorem ensure_notification_meetings (s : Store) (now : Instant)
    (mid uid : Nat) (t : Instant) :
    (ensure_notification s now mid uid t).meetings = s.meetings := by
  unfold ensure_notification
  split
  · rfl
  · split <;> rfl

theorem ensure_notification_nextMeetingId (s : Store) (now : Instant)
    (mid uid : Nat) (t : Instant) :
    (ensure_notification s now mid uid t).nextMeetingId = s.nextMeetingId := by
  unfold ensure_notification
  split
  · rfl
  · split <;> rfl

theorem ensure_notification_append (s : Store) (now : Instant) (mid uid : Nat)
    (t : Instant) :
    ∃ tail, (ensure_notification s now mid uid t).notifications
      = s.notifications ++ tail := by
  unfold ensure_notification
  split
  · exact ⟨[], (List.append_nil _).symm⟩
  · split
    · exact ⟨[], (List.append_nil _).symm⟩
    · exact ⟨_, rfl⟩

theorem notifExists_mono {s s' : Store} {mid : Nat} {t : Instant}
    (happ : ∃ tail, s'.notifications = s.notifications ++ tail)
    (h : notifExists s mid t = true) : notifExists s' mid t = true := by
  rcases happ with ⟨tail, htail⟩
  unfold notifExists at h ⊢
  rw [htail, List.any_append, h, Bool.true_or]

theorem notifExists_ensure_self {s : Store} {now : Instant} {mid uid : Nat}
    {t : Instant} (h : ¬ t ≤ now) :
    notifExists (ensure_notification s now mid uid t) mid t = true := by
  unfold ensure_notification
  rw [if_neg h]
  split
  · assumption
  · unfold notifExists
    rw [List.any_append]
    simp

theorem notifExists_eq_false_iff {s : Store} {mid : Nat} {t : Instant} :
    notifExists s mid t = false ↔ notifCount s mid t = 0 := by
  unfold notifExists notifCount
  rw [List.any_eq_false, List.length_eq_zero, List.filter_eq_nil_iff]

theorem notifCount_le_one {s : Store} (h : NKeyUnique s) (mid : Nat)
    (t : Instant) : notifCount s mid t ≤ 1 := by
  refine length_filter_le_one h ?_
  intro a b ha hb hR
  rw [Bool.and_eq_true, beq_iff_eq, beq_iff_eq] at ha hb
  rcases hR with h1 | h2 | h3 | h4
  · exact h1 (ha.1.trans hb.1.symm)
  · exact h2 (ha.2.trans hb.2.symm)
  · rw [ha.1] at h3; cases h3
  · rw [ha.2] at h4; cases h4

theorem notifCount_ensure_self {s : Store} {now : Instant} {mid uid : Nat}
    {t : Instant} (h : ¬ t ≤ now) (hle : notifCount s mid t ≤ 1) :
    notifCount (ensure_notification s now mid uid t) mid t = 1 := by
  unfold ensure_notification
  rw [if_neg h]
  split
  · rename_i hex
    have : notifCount s mid t ≠ 0 := by
      intro h0
      rw [← notifExists_eq_false_iff] at h0
      rw [hex] at h0
      cases h0
    omega
  · rename_i hex
    rw [Bool.not_eq_true] at hex
    have h0 : notifCount s mid t = 0 := notifExists_eq_false_iff.mp hex
    unfold notifCount at h0 ⊢
    rw [List.filter_append, List.length_append, h0]
    simp

theorem notifCount_ensure_other {s : Store} {now : Instant} {mid uid : Nat}
    {t : Instant} {mid' : Nat} {t' : Instant}
    (h : ¬ (mid' = mid ∧ t' = t)) :
    notifCount (ensure_notification s now mid uid t) mid' t'
      = notifCount s mid' t' := by
  unfold ensure_notification
  split
  · rfl
  · split
    · rfl
    · unfold notifCount
      rw [List.filter_append, List.length_append]
      have : ¬ (mid = mid' ∧ t = t') := fun ⟨h1, h2⟩ => h ⟨h1.symm, h2.symm⟩
      simp only [List.filter_cons, List.filter_nil]
      rw [show ((some mid == some mid' && (some t == some t')) = false) by
        simp only [Option.some_beq_some, Bool.and_eq_false_iff, beq_eq_false_iff_ne, ne_eq]
        tauto]
      simp

theorem NKeyUnique_ensure {s : Store} {now : Instant} {mid uid : Nat}
    {t : Instant} (h : NKeyUnique s) :
    NKeyUnique (ensure_notification s now mid uid t) := by
  unfold ensure_notification
  split
  · exact h
  · split
    · exact h
    · rename_i hex
      rw [Bool.not_eq_true] at hex
      unfold NKeyUnique at h ⊢
      rw [List.pairwise_append]
      refine ⟨h, List.pairwise_singleton _ _, ?_⟩
      intro a ha b hb
      rw [List.mem_singleton] at hb
      subst hb
      unfold notifExists at hex
      rw [List.any_eq_false] at hex
      have := hex a ha
      rw [Bool.and_eq_true, beq_iff_eq, beq_iff_eq] at this
      by_cases h1 : a.meeting_id = some mid
      · by_cases h2 : a.scheduled_at = some t
        · exact absurd ⟨h1, h2⟩ this
        · exact Or.inr (Or.inl h2)
      · exact Or.inl h1

theorem NIdsUnique_ensure {s : Store} {now : Instant} {mid uid : Nat}
    {t : Instant} (hid : NIdsUnique s) (hfr : NFresh s) :
    NIdsUnique (ensure_notification s now mid uid t) := by
  unfold ensure_notification
  split
  · exact hid
  · split
    · exact hid
    · unfold NIdsUnique at hid ⊢
      rw [List.pairwise_append]
      refine ⟨hid, List.pairwise_singleton _ _, ?_⟩
      intro a ha b hb
      rw [List.mem_singleton] at hb
      subst hb
      exact Nat.ne_of_lt (hfr a ha)

theorem NFresh_ensure {s : Store} {now : Instant} {mid uid : Nat}
    {t : Instant} (hfr : NFresh s) :
    NFresh (ensure_notification s now mid uid t) := by
  unfold ensure_notification
  split
  · exact hfr
  · split
    · exact hfr
    · intro n hn
      rw [List.mem_append, List.mem_singleton] at hn
      rcases hn with hn | rfl
      · exact Nat.lt_succ_of_lt (hfr n hn)
      · exact Nat.lt_succ_self _

/-! ## Lemmas about `upsert_meeting` -/

theorem setFields_id (m : Meeting) (ti : Option String) (st : Instant)
    (en : Option Instant) (lo de : Option String) :
    (setFields m ti st en lo de).id = m.id := rfl

theorem setFields_user_id (m : Meeting) (ti : Option String) (st : Instant)
    (en : Option Instant) (lo de : Option String) :
    (setFields m ti st en lo de).user_id = m.user_id := rfl

theorem setFields_external_id (m : Meeting) (ti : Option String) (st : Instant)
    (en : Option Instant) (lo de : Option String) :
    (setFields m ti st en lo de).external_id = m.external_id := rfl

theorem mPred_comp_overwrite (mid : Nat) (ti : Option String) (st : Instant)
    (en : Option Instant) (lo de : Option String) (uid : Nat) (eid : String) :
    (fun m : Meeting => m.user_id == uid && m.external_id == some eid) ∘
      (fun m => if m.id = mid then setFields m ti st en lo de else m)
      = (fun m : Meeting => m.user_id == uid && m.external_id == some eid) := by
  funext m
  by_cases h : m.id = mid <;> simp [h, setFields]

theorem findMeeting_overwriteAt (s : Store) (mid : Nat) (ti : Option String)
    (st : Instant) (en : Option Instant) (lo de : Option String) (uid : Nat)
    (eid : String) :
    findMeeting (overwriteAt s mid ti st en lo de) uid eid
      = (findMeeting s uid eid).map
          (fun m => if m.id = mid then setFields m ti st en lo de else m) := by
  unfold findMeeting overwriteAt
  rw [List.find?_map, mPred_comp_overwrite]

theorem upsert_meeting_users (s : Store) (uid : Nat) (eid : String)
    (ti : Option String) (st : Instant) (en : Option Instant)
    (lo de : Option String) :
    ((upsert_meeting s uid eid ti st en lo de).1).users = s.users := by
  unfold upsert_meeting
  split <;> rfl

theorem upsert_meeting_notifications (s : Store) (uid : Nat) (eid : String)
    (ti : Option String) (st : Instant) (en : Option Instant)
    (lo de : Option String) :
    ((upsert_meeting s uid eid ti st en lo de).1).notifications
      = s.notifications := by
  unfold upsert_meeting
  split <;> rfl

theorem upsert_meeting_nextNotifId (s : Store) (uid : Nat) (eid : String)
    (ti : Option String) (st : Instant) (en : Option Instant)
    (lo de : Option String) :
    ((upsert_meeting s uid eid ti st en lo de).1).nextNotifId
      = s.nextNotifId := by
  unfold upsert_meeting
  split <;> rfl

theorem findMeeting_upsert_self (s : Store) (uid : Nat) (eid : String)
    (ti : Option String) (st : Instant) (en : Option Instant)
    (lo de : Option String) :
    ∃ m', findMeeting (upsert_meeting s uid eid ti st en lo de).1 uid eid
        = some m' ∧
      m'.id = (upsert_meeting s uid eid ti st en lo de).2 ∧
      m'.user_id = uid ∧ m'.external_id = some eid ∧ m'.title = ti ∧
      m'.start_at = some st ∧ m'.end_at = en ∧ m'.location = lo ∧
      m'.description = de := by
  unfold upsert_meeting
  cases hf : findMeeting s uid eid with
  | some m =>
    have hm := List.find?_some hf
    rw [Bool.and_eq_true, beq_iff_eq, beq_iff_eq] at hm
    refine ⟨setFields m ti st en lo de, ?_, rfl, ?_, ?_, rfl, rfl, rfl, rfl, rfl⟩
    · rw [findMeeting_overwriteAt, hf, Option.map_some', if_pos rfl]
    · rw [setFields_user_id, hm.1]
    · rw [setFields_external_id, hm.2]
  | none =>
    refine ⟨{ id := s.nextMeetingId, user_id := uid, title := ti,
              start_at := some st, end_at := en, location := lo,
              description := de, external_id := some eid },
      ?_, rfl, rfl, rfl, rfl, rfl, rfl, rfl, rfl⟩
    show List.find? _ (s.meetings ++ [_]) = _
    rw [List.find?_append]
    unfold findMeeting at hf
    rw [hf, Option.none_or]
    simp [List.find?_cons]

theorem findMeeting_upsert_other (s : Store) (uid : Nat) (eid : String)
    (ti : Option String) (st : Instant) (en : Option Instant)
    (lo de : Option String) (uid' : Nat) (eid' : String)
    (hids : MIdsUnique s) (h : ¬ (uid' = uid ∧ eid' = eid)) :
    findMeeting (upsert_meeting s uid eid ti st en lo de).1 uid' eid'
      = findMeeting s uid' eid' := by
  unfold upsert_meeting
  cases hf : findMeeting s uid eid with
  | some m =>
    rw [findMeeting_overwriteAt]
    cases hf' : findMeeting s uid' eid' with
    | none => rfl
    | some m' =>
      rw [Option.map_some']
      have hm := List.find?_some hf
      have hm' := List.find?_some hf'
      rw [Bool.and_eq_true, beq_iff_eq, beq_iff_eq] at hm hm'
      have hne : m' ≠ m := by
        intro he
        subst he
        exact h ⟨hm'.1.symm.trans hm.1, by
          have := hm'.2.symm.trans hm.2
          exact Option.some_injective _ this⟩
      have hid : m'.id ≠ m.id :=
        pairwise_ne_of_mem (fun hab => Ne.symm hab) hids
          (List.mem_of_find?_eq_some hf') (List.mem_of_find?_eq_some hf) hne
      rw [if_neg hid]
  | none =>
    show List.find? _ (s.meetings ++ [_]) = _
    rw [List.find?_append]
    have hnone : List.find? (fun m : Meeting =>
        m.user_id == uid' && m.external_id == some eid')
        [{ id := s.nextMeetingId, user_id := uid, title := ti,
           start_at := some st, end_at := en, location := lo,
           description := de, external_id := some eid }] = none := by
      rw [List.find?_eq_none]
      intro x hx
      rw [List.mem_singleton] at hx
      subst hx
      simp only [Bool.and_eq_true, beq_iff_eq, Option.some_inj, not_and]
      intro h1 h2
      exact h ⟨h1.symm, h2.symm⟩
    rw [hnone, Option.or_none]
    rfl

theorem meetingCount_le_one {s : Store} (h : MKeyUnique s) (uid : Nat)
    (eid : String) : meetingCount s uid eid ≤ 1 := by
  refine length_filter_le_one h ?_
  intro a b ha hb hR
  rw [Bool.and_eq_true, beq_iff_eq, beq_iff_eq] at ha hb
  rcases hR with h1 | h2 | h3
  · exact h1 (ha.1.trans hb.1.symm)
  · exact h2 (ha.2.trans hb.2.symm)
  · rw [ha.2] at h3; cases h3

theorem meetingCount_overwriteAt (s : Store) (mid : Nat) (ti : Option String)
    (st : Instant) (en : Option Instant) (lo de : Option String) (uid : Nat)
    (eid : String) :
    meetingCount (overwriteAt s mid ti st en lo de) uid eid
      = meetingCount s uid eid := by
  unfold meetingCount overwriteAt
  rw [List.filter_map, List.length_map, mPred_comp_overwrite]

theorem meetingCount_upsert_self {s : Store} (hku : MKeyUnique s) (uid : Nat)
    (eid : String) (ti : Option String) (st : Instant) (en : Option Instant)
    (lo de : Option String) :
    meetingCount (upsert_meeting s uid eid ti st en lo de).1 uid eid = 1 := by
  unfold upsert_meeting
  cases hf : findMeeting s uid eid with
  | some m =>
    rw [meetingCount_overwriteAt]
    have hmem : m ∈ s.meetings := List.mem_of_find?_eq_some hf
    have hp := List.find?_some hf
    have hmf : m ∈ List.filter
        (fun m => m.user_id == uid && m.external_id == some eid) s.meetings :=
      List.mem_filter.mpr ⟨hmem, hp⟩
    have h1 : 0 < meetingCount s uid eid :=
      List.length_pos.mpr (List.ne_nil_of_mem hmf)
    have h2 := meetingCount_le_one hku uid eid
    omega
  | none =>
    unfold meetingCount
    show (List.filter _ (s.meetings ++ [_])).length = 1
    rw [List.filter_append, List.length_append]
    have h0 : (List.filter
        (fun m : Meeting => m.user_id == uid && m.external_id == some eid)
        s.meetings).length = 0 := by
      rw [List.length_eq_zero, List.filter_eq_nil_iff]
      unfold findMeeting at hf
      rw [List.find?_eq_none] at hf
      exact hf
    rw [h0]
    simp [List.filter_cons]

theorem meetingCount_upsert_other {s : Store} (uid : Nat) (eid : String)
    (ti : Option String) (st : Instant) (en : Option Instant)
    (lo de : Option String) (uid' : Nat) (eid' : String)
    (h : ¬ (uid' = uid ∧ eid' = eid)) :
    meetingCount (upsert_meeting s uid eid ti st en lo de).1 uid' eid'
      = meetingCount s uid' eid' := by
  unfold upsert_meeting
  cases hf : findMeeting s uid eid with
  | some m => rw [meetingCount_overwriteAt]
  | none =>
    unfold meetingCount
    show (List.filter _ (s.meetings ++ [_])).length = _
    rw [List.filter_append, List.length_append]
    have hnew : (List.filter
        (fun m : Meeting => m.user_id == uid' && m.external_id == some eid')
        [{ id := s.nextMeetingId, user_id := uid, title := ti,
           start_at := some st, end_at := en, location := lo,
           description := de, external_id := some eid }]).length = 0 := by
      rw [List.length_eq_zero, List.filter_eq_nil_iff]
      intro x hx
      rw [List.mem_singleton] at hx
      subst hx
      simp only [Bool.and_eq_true, beq_iff_eq, Option.some_inj, not_and]
      intro h1 h2
      exact h ⟨h1.symm, h2.symm⟩
    rw [hnew]
    omega

theorem MIdsUnique_upsert {s : Store} (hids : MIdsUnique s) (hfr : MFresh s)
    (uid : Nat) (eid : String) (ti : Option String) (st : Instant)
    (en : Option Instant) (lo de : Option String) :
    MIdsUnique (upsert_meeting s uid eid ti st en lo de).1 := by
  unfold upsert_meeting
  cases hf : findMeeting s uid eid with
  | some m =>
    refine List.Pairwise.map _ ?_ hids
    intro a b hab
    have ga : (if a.id = m.id then setFields a ti st en lo de else a).id
        = a.id := by
      split <;> simp [setFields_id]
    have gb : (if b.id = m.id then setFields b ti st en lo de else b).id
        = b.id := by
      split <;> simp [setFields_id]
    show ¬ _ = _
    rw [ga, gb]
    exact hab
  | none =>
    unfold MIdsUnique
    rw [List.pairwise_append]
    refine ⟨hids, List.pairwise_singleton _ _, ?_⟩
    intro a ha b hb
    rw [List.mem_singleton] at hb
    subst hb
    exact Nat.ne_of_lt (hfr a ha)

theorem MFresh_upsert {s : Store} (hfr : MFresh s) (uid : Nat) (eid : String)
    (ti : Option String) (st : Instant) (en : Option Instant)
    (lo de : Option String) :
    MFresh (upsert_meeting s uid eid ti st en lo de).1 := by
  unfold upsert_meeting
  cases hf : findMeeting s uid eid with
  | some m =>
    intro m' hm'
    rcases List.mem_map.mp hm' with ⟨a, ha, rfl⟩
    have ga : (if a.id = m.id then setFields a ti st en lo de else a).id
        = a.id := by
      split <;> simp [setFields_id]
    show _ < _
    rw [ga]
    exact hfr a ha
  | none =>
    intro m' hm'
    rw [List.mem_append, List.mem_singleton] at hm'
    rcases hm' with hm' | rfl
    · exact Nat.lt_succ_of_lt (hfr m' hm')
    · exact Nat.lt_succ_self _

theorem MKeyUnique_upsert {s : Store} (hku : MKeyUnique s) (uid : Nat)
    (eid : String) (ti : Option String) (st : Instant) (en : Option Instant)
    (lo de : Option String) :
    MKeyUnique (upsert_meeting s uid eid ti st en lo de).1 := by
  unfold upsert_meeting
  cases hf : findMeeting s uid eid with
  | some m =>
    refine List.Pairwise.map _ ?_ hku
    intro a b hab
    by_cases h1 : a.id = m.id <;> by_cases h2 : b.id = m.id <;>
      simpa [h1, h2, setFields, setFields_user_id, setFields_external_id]
        using hab
  | none =>
    unfold MKeyUnique
    rw [List.pairwise_append]
    refine ⟨hku, List.pairwise_singleton _ _, ?_⟩
    intro a ha b hb
    rw [List.mem_singleton] at hb
    subst hb
    unfold findMeeting at hf
    rw [List.find?_eq_none] at hf
    have := hf a ha
    rw [Bool.and_eq_true, beq_iff_eq, beq_iff_eq] at this
    by_cases h1 : a.user_id = uid
    · by_cases h2 : a.external_id = some eid
      · exact absurd ⟨h1, h2⟩ this
      · exact Or.inr (Or.inl h2)
    · exact Or.inl h1

/-! ## Lemmas about `reconcile_event` and `reconcile_account` -/

theorem MIdsUnique_ensure {s : Store} {now : Instant} {mid uid : Nat}
    {t : Instant} (h : MIdsUnique s) :
    MIdsUnique (ensure_notification s now mid uid t) := by
  unfold MIdsUnique
  rw [ensure_notification_meetings]
  exact h

theorem MFresh_ensure {s : Store} {now : Instant} {mid uid : Nat}
    {t : Instant} (h : MFresh s) :
    MFresh (ensure_notification s now mid uid t) := by
  unfold MFresh
  rw [ensure_notification_meetings, ensure_notification_nextMeetingId]
  exact h

theorem MKeyUnique_ensure {s : Store} {now : Instant} {mid uid : Nat}
    {t : Instant} (h : MKeyUnique s) :
    MKeyUnique (ensure_notification s now mid uid t) := by
  unfold MKeyUnique
  rw [ensure_notification_meetings]
  exact h

theorem NIdsUnique_upsert {s : Store} (hid : NIdsUnique s) (uid : Nat)
    (eid : String) (ti : Option String) (st : Instant) (en : Option Instant)
    (lo de : Option String) :
    NIdsUnique (upsert_meeting s uid eid ti st en lo de).1 := by
  unfold NIdsUnique
  rw [upsert_meeting_notifications]
  exact hid

theorem NFresh_upsert {s : Store} (hfr : NFresh s) (uid : Nat) (eid : String)
    (ti : Option String) (st : Instant) (en : Option Instant)
    (lo de : Option String) :
    NFresh (upsert_meeting s uid eid ti st en lo de).1 := by
  unfold NFresh
  rw [upsert_meeting_notifications, upsert_meeting_nextNotifId]
  exact hfr

theorem NKeyUnique_upsert {s : Store} (hku : NKeyUnique s) (uid : Nat)
    (eid : String) (ti : Option String) (st : Instant) (en : Option Instant)
    (lo de : Option String) :
    NKeyUnique (upsert_meeting s uid eid ti st en lo de).1 := by
  unfold NKeyUnique
  rw [upsert_meeting_notifications]
  exact hku

theorem StoreInv_ensure {s : Store} {now : Instant} {mid uid : Nat}
    {t : Instant} (h : StoreInv s) :
    StoreInv (ensure_notification s now mid uid t) :=
  ⟨MIdsUnique_ensure h.1, MFresh_ensure h.2.1, MKeyUnique_ensure h.2.2.1,
   NIdsUnique_ensure h.2.2.2.1 h.2.2.2.2.1, NFresh_ensure h.2.2.2.2.1,
   NKeyUnique_ensure h.2.2.2.2.2⟩

theorem StoreInv_upsert {s : Store} (h : StoreInv s) (uid : Nat) (eid : String)
    (ti : Option String) (st : Instant) (en : Option Instant)
    (lo de : Option String) :
    StoreInv (upsert_meeting s uid eid ti st en lo de).1 :=
  ⟨MIdsUnique_upsert h.1 h.2.1 uid eid ti st en lo de,
   MFresh_upsert h.2.1 uid eid ti st en lo de,
   MKeyUnique_upsert h.2.2.1 uid eid ti st en lo de,
   NIdsUnique_upsert h.2.2.2.1 uid eid ti st en lo de,
   NFresh_upsert h.2.2.2.2.1 uid eid ti st en lo de,
   NKeyUnique_upsert h.2.2.2.2.2 uid eid ti st en lo de⟩

theorem StoreInv_reconcile_event {s : Store} (h : StoreInv s) (now : Instant)
    (uid : Nat) (e : UnifiedEvent) :
    StoreInv (reconcile_event s now uid e) :=
  StoreInv_ensure (StoreInv_ensure (StoreInv_upsert h uid e.id e.title
    e.start_at (some e.end_at) e.location e.description))

theorem StoreInv_reconcile_account {s : Store} (h : StoreInv s) (now : Instant)
    (uid : Nat) (evs : List UnifiedEvent) :
    StoreInv (reconcile_account s now uid evs) := by
  induction evs generalizing s with
  | nil => exact h
  | cons e rest ih => exact ih (StoreInv_reconcile_event h now uid e)

theorem reconcile_event_users (s : Store) (now : Instant) (uid : Nat)
    (e : UnifiedEvent) : (reconcile_event s now uid e).users = s.users := by
  unfold reconcile_event
  rw [ensure_notification_users, ensure_notification_users,
    upsert_meeting_users]

theorem reconcile_event_notifications_append (s : Store) (now : Instant)
    (uid : Nat) (e : UnifiedEvent) :
    ∃ tail, (reconcile_event s now uid e).notifications
      = s.notifications ++ tail := by
  unfold reconcile_event
  rcases ensure_notification_append
    (ensure_notification (upsert_meeting s uid e.id e.title e.start_at
      (some e.end_at) e.location e.description).1 now
      (upsert_meeting s uid e.id e.title e.start_at (some e.end_at)
        e.location e.description).2 uid (e.start_at - dayOffset))
    now _ uid (e.start_at - hourOffset) with ⟨t2, h2⟩
  rcases ensure_notification_append
    (upsert_meeting s uid e.id e.title e.start_at (some e.end_at)
      e.location e.description).1 now _ uid (e.start_at - dayOffset)
    with ⟨t1, h1⟩
  refine ⟨t1 ++ t2, ?_⟩
  rw [h2, h1, upsert_meeting_notifications, List.append_assoc]

theorem reconcile_account_users (s : Store) (now : Instant) (uid : Nat)
    (evs : List UnifiedEvent) :
    (reconcile_account s now uid evs).users = s.users := by
  induction evs generalizing s with
  | nil => rfl
  | cons e rest ih =>
    show (reconcile_account (reconcile_event s now uid e) now uid rest).users = _
    rw [ih, reconcile_event_users]

theorem reconcile_account_notifications_append (s : Store) (now : Instant)
    (uid : Nat) (evs : List UnifiedEvent) :
    ∃ tail, (reconcile_account s now uid evs).notifications
      = s.notifications ++ tail := by
  induction evs generalizing s with
  | nil => exact ⟨[], (List.append_nil _).symm⟩
  | cons e rest ih =>
    rcases ih (reconcile_event s now uid e) with ⟨t2, h2⟩
    rcases reconcile_event_notifications_append s now uid e with ⟨t1, h1⟩
    exact ⟨t1 ++ t2, by
      show (reconcile_account (reconcile_event s now uid e) now uid rest).notifications = _
      rw [h2, h1, List.append_assoc]⟩

theorem findMeeting_ensure (s : Store) (now : Instant) (mid uid : Nat)
    (t : Instant) (uid' : Nat) (eid' : String) :
    findMeeting (ensure_notification s now mid uid t) uid' eid'
      = findMeeting s uid' eid' := by
  unfold findMeeting
  rw [ensure_notification_meetings]

theorem upsert_snd_of_found {s : Store} {uid : Nat} {eid : String}
    {m : Meeting} (hf : findMeeting s uid eid = some m) (ti : Option String)
    (st : Instant) (en : Option Instant) (lo de : Option String) :
    (upsert_meeting s uid eid ti st en lo de).2 = m.id := by
  unfold upsert_meeting
  rw [hf]

theorem reconcile_event_post (s : Store) (now : Instant) (uid : Nat)
    (e : UnifiedEvent) :
    ∃ m', findMeeting (reconcile_event s now uid e) uid e.id = some m' ∧
      m'.user_id = uid ∧ m'.external_id = some e.id ∧ m'.title = e.title ∧
      m'.start_at = some e.start_at ∧ m'.end_at = some e.end_at ∧
      m'.location = e.location ∧ m'.description = e.description ∧
      (¬ e.start_at - dayOffset ≤ now →
        notifExists (reconcile_event s now uid e) m'.id
          (e.start_at - dayOffset) = true) ∧
      (¬ e.start_at - hourOffset ≤ now →
        notifExists (reconcile_event s now uid e) m'.id
          (e.start_at - hourOffset) = true) := by
  rcases findMeeting_upsert_self s uid e.id e.title e.start_at (some e.end_at)
    e.location e.description with
    ⟨m', hfind, hid, hu, hx, ht, hst, hen, hlo, hde⟩
  refine ⟨m', ?_, hu, hx, ht, hst, hen, hlo, hde, ?_, ?_⟩
  · show findMeeting (ensure_notification (ensure_notification _ _ _ _ _) _ _ _ _) uid e.id = _
    rw [findMeeting_ensure, findMeeting_ensure]
    exact hfind
  · intro hday
    rw [hid]
    refine notifExists_mono (ensure_notification_append _ _ _ _ _) ?_
    exact notifExists_ensure_self hday
  · intro hhour
    rw [hid]
    exact notifExists_ensure_self hhour

theorem findMeeting_reconcile_event_other {s : Store} (hids : MIdsUnique s)
    {now : Instant} {uid : Nat} {e : UnifiedEvent} {uid' : Nat}
    {eid' : String} (h : ¬ (uid' = uid ∧ eid' = e.id)) :
    findMeeting (reconcile_event s now uid e) uid' eid'
      = findMeeting s uid' eid' := by
  show findMeeting (ensure_notification (ensure_notification _ _ _ _ _) _ _ _ _) uid' eid' = _
  rw [findMeeting_ensure, findMeeting_ensure]
  exact findMeeting_upsert_other s uid e.id e.title e.start_at (some e.end_at)
    e.location e.description uid' eid' hids h

theorem meetingIdFor_reconcile_event_mono {s : Store} (hids : MIdsUnique s)
    {now : Instant} {uid' : Nat} {e' : UnifiedEvent} {uid : Nat}
    {eid : String} {mid : Nat} (h : meetingIdFor s uid eid = some mid) :
    meetingIdFor (reconcile_event s now uid' e') uid eid = some mid := by
  by_cases hk : uid = uid' ∧ eid = e'.id
  · rcases hk with ⟨rfl, rfl⟩
    unfold meetingIdFor at h
    cases hf : findMeeting s uid e'.id with
    | none => rw [hf] at h; cases h
    | some m =>
      rw [hf, Option.map_some'] at h
      rcases findMeeting_upsert_self s uid e'.id e'.title e'.start_at
        (some e'.end_at) e'.location e'.description with
        ⟨m', hfind, hid, _, _, _, _, _, _, _⟩
      unfold meetingIdFor
      have : findMeeting (reconcile_event s now uid e') uid e'.id = some m' := by
        show findMeeting (ensure_notification (ensure_notification _ _ _ _ _) _ _ _ _) uid e'.id = _
        rw [findMeeting_ensure, findMeeting_ensure]
        exact hfind
      rw [this, Option.map_some', hid,
        upsert_snd_of_found hf e'.title e'.start_at (some e'.end_at)
          e'.location e'.description]
      exact h
  · unfold meetingIdFor
    rw [findMeeting_reconcile_event_other hids hk]
    exact h

theorem meetingIdFor_reconcile_account_mono {s : Store} (hinv : StoreInv s)
    {now : Instant} {uid' : Nat} {evs : List UnifiedEvent} {uid : Nat}
    {eid : String} {mid : Nat} (h : meetingIdFor s uid eid = some mid) :
    meetingIdFor (reconcile_account s now uid' evs) uid eid = some mid := by
  induction evs generalizing s with
  | nil => exact h
  | cons e rest ih =>
    exact ih (StoreInv_reconcile_event hinv now uid' e)
      (meetingIdFor_reconcile_event_mono hinv.1 h)

theorem findMeeting_reconcile_account_frame {s : Store} (hinv : StoreInv s)
    {now : Instant} {uid' : Nat} {evs : List UnifiedEvent} {uid : Nat}
    {eid : String} (h : ∀ e ∈ evs, ¬ (uid = uid' ∧ eid = e.id)) :
    findMeeting (reconcile_account s now uid' evs) uid eid
      = findMeeting s uid eid := by
  induction evs generalizing s with
  | nil => rfl
  | cons e rest ih =>
    show findMeeting (reconcile_account (reconcile_event s now uid' e) now uid' rest) uid eid = _
    rw [ih (StoreInv_reconcile_event hinv now uid' e)
      (fun e' he' => h e' (List.mem_cons_of_mem e he')),
      findMeeting_reconcile_event_other hinv.1
        (h e (List.mem_cons_self e rest))]

theorem notifExists_reconcile_account_mono {s : Store} {now : Instant}
    {uid : Nat} {evs : List UnifiedEvent} {mid : Nat} {t : Instant}
    (h : notifExists s mid t = true) :
    notifExists (reconcile_account s now uid evs) mid t = true :=
  notifExists_mono (reconcile_account_notifications_append s now uid evs) h

theorem reconcile_account_contains {s : Store} (hinv : StoreInv s)
    (now : Instant) (uid : Nat) (evs : List UnifiedEvent) :
    ∀ e ∈ evs, ∃ mid,
      meetingIdFor (reconcile_account s now uid evs) uid e.id = some mid ∧
      (¬ e.start_at - dayOffset ≤ now →
        notifExists (reconcile_account s now uid evs) mid
          (e.start_at - dayOffset) = true) ∧
      (¬ e.start_at - hourOffset ≤ now →
        notifExists (reconcile_account s now uid evs) mid
          (e.start_at - hourOffset) = true) := by
  induction evs generalizing s with
  | nil => intro e he; cases he
  | cons e' rest ih =>
    intro e he
    have hinv' := StoreInv_reconcile_event hinv now uid e'
    rcases List.mem_cons.mp he with rfl | he'
    · rcases reconcile_event_post s now uid e with
        ⟨m', hfind, _, _, _, _, _, _, _, hday, hhour⟩
      refine ⟨m'.id, ?_, ?_, ?_⟩
      · refine meetingIdFor_reconcile_account_mono hinv' ?_
        unfold meetingIdFor
        rw [hfind, Option.map_some']
      · intro hd
        exact notifExists_reconcile_account_mono
          (s := reconcile_event s now uid e) (hday hd)
      · intro hh
        exact notifExists_reconcile_account_mono
          (s := reconcile_event s now uid e) (hhour hh)
    · exact ih hinv' e he'

theorem lastEvent_isSome_of_mem {rest : List UnifiedEvent}
    {e'' : UnifiedEvent} (h : e'' ∈ rest) {eid : String}
    (hid : e''.id = eid) : lastEvent rest eid ≠ none := by
  induction rest with
  | nil => cases h
  | cons x xs ih =>
    unfold lastEvent
    cases hx : lastEvent xs eid with
    | some y => simp
    | none =>
      rcases List.mem_cons.mp h with rfl | hxs
      · rw [if_pos (beq_iff_eq.mpr hid)]
        simp
      · exact absurd hx (ih hxs)

theorem reconcile_account_last_fields {s : Store} (hinv : StoreInv s)
    (now : Instant) (uid : Nat) (evs : List UnifiedEvent) (eid : String)
    (e' : UnifiedEvent) (hlast : lastEvent evs eid = some e') :
    ∃ m', findMeeting (reconcile_account s now uid evs) uid eid = some m' ∧
      m'.title = e'.title ∧ m'.start_at = some e'.start_at ∧
      m'.end_at = some e'.end_at ∧ m'.location = e'.location ∧
      m'.description = e'.description := by
  induction evs generalizing s with
  | nil => cases hlast
  | cons e rest ih =>
    have hinv' := StoreInv_reconcile_event hinv now uid e
    unfold lastEvent at hlast
    cases hrest : lastEvent rest eid with
    | some e'' =>
      rw [hrest] at hlast
      cases hlast
      exact ih hinv' hrest
    | none =>
      rw [hrest] at hlast
      by_cases hmatch : e.id == eid
      · rw [if_pos hmatch] at hlast
        cases hlast
        rw [beq_iff_eq] at hmatch
        subst hmatch
        have hnone : ∀ e'' ∈ rest, ¬ (uid = uid ∧ e'.id = e''.id) := by
          intro e'' he'' hc
          exact lastEvent_isSome_of_mem he'' hc.2.symm hrest
        show ∃ m', findMeeting (reconcile_account (reconcile_event s now uid e') now uid rest) uid e'.id = some m' ∧ _
        rw [findMeeting_reconcile_account_frame hinv' hnone]
        rcases reconcile_event_post s now uid e' with
          ⟨m', hfind, _, _, ht, hst, hen, hlo, hde, _, _⟩
        exact ⟨m', hfind, ht, hst, hen, hlo, hde⟩
      · rw [if_neg hmatch] at hlast
        cases hlast

/-! ## Replay algebra: overwriting commutes with the other reconcile steps.

These lemmas drive the idempotence proof: a second run of the account loop
only re-overwrites meeting fields, and every such overwrite is either
absorbed by a later overwrite of the same row or was already a no-op. -/

theorem setFields_setFields (m : Meeting) (t1 : Option String) (s1 : Instant)
    (e1 : Option Instant) (l1 d1 : Option String) (t2 : Option String)
    (s2 : Instant) (e2 : Option Instant) (l2 d2 : Option String) :
    setFields (setFields m t1 s1 e1 l1 d1) t2 s2 e2 l2 d2
      = setFields m t2 s2 e2 l2 d2 := rfl

theorem setFields_eq_self {m : Meeting} {ti : Option String} {st : Instant}
    {en : Option Instant} {lo de : Option String} (h1 : m.title = ti)
    (h2 : m.start_at = some st) (h3 : m.end_at = en) (h4 : m.location = lo)
    (h5 : m.description = de) : setFields m ti st en lo de = m := by
  cases m
  simp only [setFields] at *
  simp [← h1, ← h2, ← h3, ← h4, ← h5]

theorem overwriteAt_merge (s : Store) (mid : Nat) (t1 : Option String)
    (s1 : Instant) (e1 : Option Instant) (l1 d1 : Option String)
    (t2 : Option String) (s2 : Instant) (e2 : Option Instant)
    (l2 d2 : Option String) :
    overwriteAt (overwriteAt s mid t1 s1 e1 l1 d1) mid t2 s2 e2 l2 d2
      = overwriteAt s mid t2 s2 e2 l2 d2 := by
  unfold overwriteAt
  rw [List.map_map]
  have hfg : ((fun m => if m.id = mid then setFields m t2 s2 e2 l2 d2 else m) ∘
      (fun m => if m.id = mid then setFields m t1 s1 e1 l1 d1 else m))
      = (fun m : Meeting =>
          if m.id = mid then setFields m t2 s2 e2 l2 d2 else m) := by
    funext m
    by_cases h : m.id = mid
    · simp [Function.comp, h, setFields_id, setFields_setFields]
    · simp [Function.comp, h]
  rw [hfg]

theorem overwriteAt_comm {mid mid' : Nat} (hne : mid ≠ mid') (s : Store)
    (t1 : Option String) (s1 : Instant) (e1 : Option Instant)
    (l1 d1 : Option String) (t2 : Option String) (s2 : Instant)
    (e2 : Option Instant) (l2 d2 : Option String) :
    overwriteAt (overwriteAt s mid t1 s1 e1 l1 d1) mid' t2 s2 e2 l2 d2
      = overwriteAt (overwriteAt s mid' t2 s2 e2 l2 d2) mid t1 s1 e1 l1 d1 := by
  unfold overwriteAt
  rw [List.map_map, List.map_map]
  have hfg : ((fun m => if m.id = mid' then setFields m t2 s2 e2 l2 d2 else m) ∘
      (fun m => if m.id = mid then setFields m t1 s1 e1 l1 d1 else m))
      = ((fun m => if m.id = mid then setFields m t1 s1 e1 l1 d1 else m) ∘
        (fun m : Meeting =>
          if m.id = mid' then setFields m t2 s2 e2 l2 d2 else m)) := by
    funext m
    by_cases h1 : m.id = mid
    · have h2 : ¬ m.id = mid' := h1 ▸ hne
      simp [Function.comp, h1, h2, setFields_id, hne, Ne.symm hne]
    · by_cases h2 : m.id = mid'
      · simp [Function.comp, h1, h2, setFields_id, hne, Ne.symm hne]
      · simp [Function.comp, h1, h2]
  rw [hfg]

theorem overwriteAt_eq_self {s : Store} {mid : Nat} {ti : Option String}
    {st : Instant} {en : Option Instant} {lo de : Option String}
    (h : ∀ m ∈ s.meetings, m.id = mid → setFields m ti st en lo de = m) :
    overwriteAt s mid ti st en lo de = s := by
  unfold overwriteAt
  rw [map_id_of_mem (fun m hm => by
    by_cases hid : m.id = mid
    · rw [if_pos hid]; exact h m hm hid
    · rw [if_neg hid])]

theorem ensure_overwrite_comm (s : Store) (mid : Nat) (ti : Option String)
    (st : Instant) (en : Option Instant) (lo de : Option String)
    (now : Instant) (mid' uid : Nat) (t : Instant) :
    ensure_notification (overwriteAt s mid ti st en lo de) now mid' uid t
      = overwriteAt (ensure_notification s now mid' uid t) mid ti st en lo de := by
  have hne : notifExists (overwriteAt s mid ti st en lo de) mid' t
      = notifExists s mid' t := rfl
  unfold ensure_notification
  rw [hne]
  by_cases h1 : t ≤ now
  · rw [if_pos h1, if_pos h1]
  · rw [if_neg h1, if_neg h1]
    by_cases h2 : notifExists s mid' t = true
    · rw [if_pos h2, if_pos h2]
    · rw [if_neg h2, if_neg h2]
      rfl

theorem findMeeting_eq_of_mem {s : Store} (hku : MKeyUnique s) {m0 : Meeting}
    {uid : Nat} {key : String} (hm0 : m0 ∈ s.meetings)
    (hu : m0.user_id = uid) (hx : m0.external_id = some key) :
    findMeeting s uid key = some m0 := by
  have hsym : ∀ {a b : Meeting},
      (a.user_id ≠ b.user_id ∨ a.external_id ≠ b.external_id ∨
        a.external_id = none) →
      (b.user_id ≠ a.user_id ∨ b.external_id ≠ a.external_id ∨
        b.external_id = none) := by
    intro a b hab
    rcases hab with h | h | h
    · exact Or.inl (Ne.symm h)
    · exact Or.inr (Or.inl (Ne.symm h))
    · cases hb : b.external_id with
      | none => exact Or.inr (Or.inr rfl)
      | some v =>
        refine Or.inr (Or.inl ?_)
        rw [h]
        simp
  cases hf : findMeeting s uid key with
  | none =>
    unfold findMeeting at hf
    rw [List.find?_eq_none] at hf
    have := hf m0 hm0
    rw [Bool.and_eq_true, beq_iff_eq, beq_iff_eq] at this
    exact absurd ⟨hu, hx⟩ this
  | some x =>
    have hxp := List.find?_some hf
    rw [Bool.and_eq_true, beq_iff_eq, beq_iff_eq] at hxp
    by_cases heq : x = m0
    · exact congrArg some heq
    · exfalso
      have hR := pairwise_ne_of_mem hsym hku
        (List.mem_of_find?_eq_some hf) hm0 heq
      rcases hR with h | h | h
      · exact h (hxp.1.trans hu.symm)
      · exact h (hxp.2.trans hx.symm)
      · rw [hxp.2] at h; cases h

theorem reconcile_event_found {s : Store} {uid : Nat} {e : UnifiedEvent}
    {m : Meeting} (hf : findMeeting s uid e.id = some m) {now : Instant}
    (hday : e.start_at - dayOffset ≤ now ∨
      notifExists s m.id (e.start_at - dayOffset) = true)
    (hhour : e.start_at - hourOffset ≤ now ∨
      notifExists s m.id (e.start_at - hourOffset) = true) :
    reconcile_event s now uid e
      = overwriteAt s m.id e.title e.start_at (some e.end_at) e.location
          e.description := by
  have hup : upsert_meeting s uid e.id e.title e.start_at (some e.end_at)
      e.location e.description
      = (overwriteAt s m.id e.title e.start_at (some e.end_at) e.location
          e.description, m.id) := by
    unfold upsert_meeting
    rw [hf]
  show ensure_notification (ensure_notification
      (upsert_meeting s uid e.id e.title e.start_at (some e.end_at)
        e.location e.description).1 now
      (upsert_meeting s uid e.id e.title e.start_at (some e.end_at)
        e.location e.description).2 uid (e.start_at - dayOffset)) now
      (upsert_meeting s uid e.id e.title e.start_at (some e.end_at)
        e.location e.description).2 uid (e.start_at - hourOffset) = _
  rw [hup]
  have h1 : ensure_notification (overwriteAt s m.id e.title e.start_at
      (some e.end_at) e.location e.description) now m.id uid
      (e.start_at - dayOffset)
      = overwriteAt s m.id e.title e.start_at (some e.end_at) e.location
          e.description := by
    rcases hday with h | h
    · exact ensure_notification_of_past h
    · exact ensure_notification_of_exists h
  rw [h1]
  rcases hhour with h | h
  · exact ensure_notification_of_past h
  · exact ensure_notification_of_exists h

theorem reconcile_event_overwrite_absorb {s : Store} {uid : Nat}
    {e' : UnifiedEvent} {m : Meeting} (hf : findMeeting s uid e'.id = some m)
    {mid : Nat} (hmid : m.id = mid) (now : Instant) (ti : Option String)
    (st : Instant) (en : Option Instant) (lo de : Option String) :
    reconcile_event (overwriteAt s mid ti st en lo de) now uid e'
      = reconcile_event s now uid e' := by
  have hf' : findMeeting (overwriteAt s mid ti st en lo de) uid e'.id
      = some (setFields m ti st en lo de) := by
    rw [findMeeting_overwriteAt, hf, Option.map_some', if_pos hmid]
  have hup1 : upsert_meeting (overwriteAt s mid ti st en lo de) uid e'.id
      e'.title e'.start_at (some e'.end_at) e'.location e'.description
      = (overwriteAt s mid e'.title e'.start_at (some e'.end_at) e'.location
          e'.description, mid) := by
    unfold upsert_meeting
    rw [hf']
    show (overwriteAt (overwriteAt s mid ti st en lo de)
        (setFields m ti st en lo de).id e'.title e'.start_at (some e'.end_at)
        e'.location e'.description, (setFields m ti st en lo de).id) = _
    rw [setFields_id, hmid, overwriteAt_merge]
  have hup2 : upsert_meeting s uid e'.id e'.title e'.start_at (some e'.end_at)
      e'.location e'.description
      = (overwriteAt s mid e'.title e'.start_at (some e'.end_at) e'.location
          e'.description, mid) := by
    unfold upsert_meeting
    rw [hf]
    show (overwriteAt s m.id e'.title e'.start_at (some e'.end_at)
        e'.location e'.description, m.id) = _
    rw [hmid]
  unfold reconcile_event
  rw [hup1, hup2]

theorem reconcile_event_overwrite_comm {s : Store} (hids : MIdsUnique s)
    (hfr : MFresh s) {mid : Nat} {m0 : Meeting} (hm0 : m0 ∈ s.meetings)
    (hm0id : m0.id = mid) {uid' : Nat} {e' : UnifiedEvent}
    (hm0k : (m0.user_id == uid' && m0.external_id == some e'.id) = false)
    (now : Instant) (ti : Option String) (st : Instant) (en : Option Instant)
    (lo de : Option String) :
    reconcile_event (overwriteAt s mid ti st en lo de) now uid' e'
      = overwriteAt (reconcile_event s now uid' e') mid ti st en lo de := by
  cases hf : findMeeting s uid' e'.id with
  | some m' =>
    have hm' : m' ∈ s.meetings := List.mem_of_find?_eq_some hf
    have hne : m' ≠ m0 := by
      intro he
      have hp := List.find?_some hf
      rw [he, hm0k] at hp
      cases hp
    have hidne : m'.id ≠ mid := by
      rw [← hm0id]
      exact pairwise_ne_of_mem (fun hab => Ne.symm hab) hids hm' hm0 hne
    have hf' : findMeeting (overwriteAt s mid ti st en lo de) uid' e'.id
        = some m' := by
      rw [findMeeting_overwriteAt, hf, Option.map_some', if_neg hidne]
    have hup1 : upsert_meeting (overwriteAt s mid ti st en lo de) uid' e'.id
        e'.title e'.start_at (some e'.end_at) e'.location e'.description
        = (overwriteAt (overwriteAt s m'.id e'.title e'.start_at
            (some e'.end_at) e'.location e'.description) mid ti st en lo de,
          m'.id) := by
      unfold upsert_meeting
      rw [hf']
      show (overwriteAt (overwriteAt s mid ti st en lo de) m'.id e'.title
          e'.start_at (some e'.end_at) e'.location e'.description, m'.id) = _
      rw [overwriteAt_comm (Ne.symm hidne)]
    have hup2 : upsert_meeting s uid' e'.id e'.title e'.start_at
        (some e'.end_at) e'.location e'.description
        = (overwriteAt s m'.id e'.title e'.start_at (some e'.end_at)
            e'.location e'.description, m'.id) := by
      unfold upsert_meeting
      rw [hf]
    unfold reconcile_event
    rw [hup1, hup2]
    show ensure_notification (ensure_notification (overwriteAt _ mid ti st en lo de) _ _ _ _) _ _ _ _ = _
    rw [ensure_overwrite_comm, ensure_overwrite_comm]
  | none =>
    have hf' : findMeeting (overwriteAt s mid ti st en lo de) uid' e'.id
        = none := by
      rw [findMeeting_overwriteAt, hf, Option.map_none']
    have hmidlt : mid < s.nextMeetingId := hm0id ▸ hfr m0 hm0
    have hstore : Store.mk s.users
        ((s.meetings.map (fun m =>
          if m.id = mid then setFields m ti st en lo de else m)) ++
          [Meeting.mk s.nextMeetingId uid' e'.title (some e'.start_at)
            (some e'.end_at) e'.location e'.description (some e'.id)])
        s.notifications (s.nextMeetingId + 1) s.nextNotifId
        = overwriteAt (Store.mk s.users
            (s.meetings ++
              [Meeting.mk s.nextMeetingId uid' e'.title (some e'.start_at)
                (some e'.end_at) e'.location e'.description (some e'.id)])
            s.notifications (s.nextMeetingId + 1) s.nextNotifId)
            mid ti st en lo de := by
      unfold overwriteAt
      rw [List.map_append]
      have hone : List.map (fun m =>
          if m.id = mid then setFields m ti st en lo de else m)
          [Meeting.mk s.nextMeetingId uid' e'.title (some e'.start_at)
            (some e'.end_at) e'.location e'.description (some e'.id)]
          = [Meeting.mk s.nextMeetingId uid' e'.title (some e'.start_at)
              (some e'.end_at) e'.location e'.description (some e'.id)] := by
        rw [List.map_singleton, if_neg (by simpa using Nat.ne_of_gt hmidlt)]
      rw [hone]
    have hup1 : upsert_meeting (overwriteAt s mid ti st en lo de) uid' e'.id
        e'.title e'.start_at (some e'.end_at) e'.location e'.description
        = (overwriteAt (Store.mk s.users
            (s.meetings ++
              [Meeting.mk s.nextMeetingId uid' e'.title (some e'.start_at)
                (some e'.end_at) e'.location e'.description (some e'.id)])
            s.notifications (s.nextMeetingId + 1) s.nextNotifId)
            mid ti st en lo de,
          s.nextMeetingId) := by
      unfold upsert_meeting
      rw [hf']
      exact congrArg (fun st' => (st', s.nextMeetingId)) hstore
    have hup2 : upsert_meeting s uid' e'.id e'.title e'.start_at
        (some e'.end_at) e'.location e'.description
        = (Store.mk s.users
            (s.meetings ++
              [Meeting.mk s.nextMeetingId uid' e'.title (some e'.start_at)
                (some e'.end_at) e'.location e'.description (some e'.id)])
            s.notifications (s.nextMeetingId + 1) s.nextNotifId,
          s.nextMeetingId) := by
      unfold upsert_meeting
      rw [hf]
    unfold reconcile_event
    rw [hup1, hup2]
    show ensure_notification (ensure_notification (overwriteAt _ mid ti st en lo de) _ _ _ _) _ _ _ _ = _
    rw [ensure_overwrite_comm, ensure_overwrite_comm]

theorem reconcile_account_overwrite_absorb {rest : List UnifiedEvent}
    {s : Store} (hinv : StoreInv s) {uid : Nat} {key : String} {mid : Nat}
    (hmid : meetingIdFor s uid key = some mid)
    (hkey : ∃ e'' ∈ rest, e''.id = key) (now : Instant) (ti : Option String)
    (st : Instant) (en : Option Instant) (lo de : Option String) :
    reconcile_account (overwriteAt s mid ti st en lo de) now uid rest
      = reconcile_account s now uid rest := by
  induction rest generalizing s with
  | nil =>
    rcases hkey with ⟨e'', he'', _⟩
    cases he''
  | cons e' rest' ih =>
    have hm0 : ∃ m0, findMeeting s uid key = some m0 ∧ m0.id = mid := by
      cases hf : findMeeting s uid key with
      | none => rw [meetingIdFor, hf] at hmid; cases hmid
      | some m0 =>
        rw [meetingIdFor, hf, Option.map_some'] at hmid
        exact ⟨m0, rfl, Option.some_injective _ hmid⟩
    rcases hm0 with ⟨m0, hf0, hid0⟩
    by_cases hsame : e'.id = key
    · subst hsame
      have habs := reconcile_event_overwrite_absorb hf0 hid0 now ti st en lo de
      show reconcile_account
        (reconcile_event (overwriteAt s mid ti st en lo de) now uid e')
        now uid rest' = reconcile_account (reconcile_event s now uid e') now uid rest'
      rw [habs]
    · have hm0mem : m0 ∈ s.meetings := List.mem_of_find?_eq_some hf0
      have hp0 := List.find?_some hf0
      rw [Bool.and_eq_true, beq_iff_eq, beq_iff_eq] at hp0
      have hm0k : (m0.user_id == uid && m0.external_id == some e'.id)
          = false := by
        rw [hp0.2]
        simp [Ne.symm hsame]
      have hcomm := reconcile_event_overwrite_comm hinv.1 hinv.2.1 hm0mem
        hid0 hm0k now ti st en lo de
      show reconcile_account
        (reconcile_event (overwriteAt s mid ti st en lo de) now uid e')
        now uid rest' = reconcile_account (reconcile_event s now uid e') now uid rest'
      rw [hcomm]
      have hinv' := StoreInv_reconcile_event hinv now uid e'
      have hmid' : meetingIdFor (reconcile_event s now uid e') uid key
          = some mid := meetingIdFor_reconcile_event_mono hinv.1 hmid
      have hkey' : ∃ e'' ∈ rest', e''.id = key := by
        rcases hkey with ⟨e'', he'', hk⟩
        rcases List.mem_cons.mp he'' with rfl | h
        · exact absurd hk hsame
        · exact ⟨e'', h, hk⟩
      exact ih hinv' hmid' hkey'

theorem lastEvent_eq_none {rest : List UnifiedEvent} {key : String}
    (h : ∀ e'' ∈ rest, e''.id ≠ key) : lastEvent rest key = none := by
  induction rest with
  | nil => rfl
  | cons x xs ih =>
    unfold lastEvent
    rw [ih (fun e he => h e (List.mem_cons_of_mem x he))]
    rw [if_neg (by simpa using h x (List.mem_cons_self x xs))]

theorem reconcile_account_idem {s : Store} (hinv : StoreInv s) (now : Instant)
    (uid : Nat) (evs : List UnifiedEvent) :
    reconcile_account (reconcile_account s now uid evs) now uid evs
      = reconcile_account s now uid evs := by
  induction evs generalizing s with
  | nil => rfl
  | cons e rest ih =>
    have hinv1 := StoreInv_reconcile_event hinv now uid e
    rcases reconcile_event_post s now uid e with
      ⟨m1, hfind1, _, _, _, _, _, _, _, hday1, hhour1⟩
    have hmid1 : meetingIdFor (reconcile_event s now uid e) uid e.id
        = some m1.id := by
      rw [meetingIdFor, hfind1, Option.map_some']
    have hmidt : meetingIdFor
        (reconcile_account (reconcile_event s now uid e) now uid rest) uid e.id
        = some m1.id := meetingIdFor_reconcile_account_mono hinv1 hmid1
    have hinvt : StoreInv
        (reconcile_account (reconcile_event s now uid e) now uid rest) :=
      StoreInv_reconcile_account hinv1 now uid rest
    have hmt : ∃ mtop, findMeeting
        (reconcile_account (reconcile_event s now uid e) now uid rest) uid e.id
        = some mtop ∧ mtop.id = m1.id := by
      cases hf : findMeeting
          (reconcile_account (reconcile_event s now uid e) now uid rest)
          uid e.id with
      | none => rw [meetingIdFor, hf] at hmidt; cases hmidt
      | some mtop =>
        rw [meetingIdFor, hf, Option.map_some'] at hmidt
        exact ⟨mtop, rfl, Option.some_injective _ hmidt⟩
    rcases hmt with ⟨mtop, hft, hmtid⟩
    have hdayt : e.start_at - dayOffset ≤ now ∨ notifExists
        (reconcile_account (reconcile_event s now uid e) now uid rest) mtop.id
        (e.start_at - dayOffset) = true := by
      by_cases hd : e.start_at - dayOffset ≤ now
      · exact Or.inl hd
      · right
        rw [hmtid]
        exact notifExists_reconcile_account_mono
          (s := reconcile_event s now uid e) (hday1 hd)
    have hhourt : e.start_at - hourOffset ≤ now ∨ notifExists
        (reconcile_account (reconcile_event s now uid e) now uid rest) mtop.id
        (e.start_at - hourOffset) = true := by
      by_cases hh : e.start_at - hourOffset ≤ now
      · exact Or.inl hh
      · right
        rw [hmtid]
        exact notifExists_reconcile_account_mono
          (s := reconcile_event s now uid e) (hhour1 hh)
    have hre := reconcile_event_found hft hdayt hhourt
    have htt : reconcile_account
        (reconcile_account (reconcile_event s now uid e) now uid rest)
        now uid rest
        = reconcile_account (reconcile_event s now uid e) now uid rest :=
      ih hinv1
    show reconcile_account (reconcile_event
        (reconcile_account (reconcile_event s now uid e) now uid rest)
        now uid e) now uid rest
      = reconcile_account (reconcile_event s now uid e) now uid rest
    rw [hre]
    by_cases hocc : ∃ e'' ∈ rest, e''.id = e.id
    · rw [reconcile_account_overwrite_absorb hinvt
        (hmtid ▸ hmidt) hocc now e.title e.start_at (some e.end_at)
        e.location e.description]
      exact htt
    · push_neg at hocc
      have hlast : lastEvent (e :: rest) e.id = some e := by
        unfold lastEvent
        rw [lastEvent_eq_none hocc]
        simp
      rcases reconcile_account_last_fields hinv now uid (e :: rest) e.id e
        hlast with ⟨m', hfm', htm', hstm', henm', hlom', hdem'⟩
      have hmtopeq : mtop = m' := by
        have h2 : findMeeting
            (reconcile_account (reconcile_event s now uid e) now uid rest)
            uid e.id = some m' := hfm'
        rw [hft] at h2
        exact Option.some_injective _ h2
      subst hmtopeq
      have hov : overwriteAt
          (reconcile_account (reconcile_event s now uid e) now uid rest)
          mtop.id e.title e.start_at (some e.end_at) e.location e.description
          = reconcile_account (reconcile_event s now uid e) now uid rest := by
        apply overwriteAt_eq_self
        intro x hx hxid
        have hmtmem : mtop ∈
            (reconcile_account (reconcile_event s now uid e) now uid rest).meetings :=
          List.mem_of_find?_eq_some hft
        have hxeq : x = mtop := by
          by_cases hxmt : x = mtop
          · exact hxmt
          · exact absurd hxid
              (pairwise_ne_of_mem (fun hab => Ne.symm hab) hinvt.1 hx
                hmtmem hxmt)
        subst hxeq
        exact setFields_eq_self htm' hstm' henm' hlom' hdem'
      rw [hov]
      exact htt

/-! ## Lemmas about the dispatcher -/

theorem joinRow_notif {s : Store} {n : Notification} {r : DispatchRow}
    (h : joinRow s n = some r) : r.notif = n := by
  unfold joinRow at h
  cases hu : s.users.find? (fun u => u.id == n.user_id) with
  | none => rw [hu] at h; cases h
  | some u =>
    rw [hu] at h
    cases hm : n.meeting_id.bind
        (fun mid => s.meetings.find? (fun m => m.id == mid)) with
    | none => rw [hm] at h; cases h
    | some m =>
      rw [hm] at h
      cases h
      rfl

theorem mem_dueRows {s : Store} {now : Instant} {r : DispatchRow}
    (h : r ∈ dueRows s now) :
    r.notif ∈ s.notifications ∧ isDue r.notif now = true ∧
      joinRow s r.notif = some r := by
  unfold dueRows at h
  rcases List.mem_filterMap.mp h with ⟨n, hn, hsome⟩
  by_cases hd : isDue n now
  · rw [if_pos hd] at hsome
    have hrn := joinRow_notif hsome
    rw [hrn]
    exact ⟨hn, hd, hsome⟩
  · rw [if_neg hd] at hsome
    cases hsome

theorem mem_insertByTime {r a : DispatchRow} {l : List DispatchRow} :
    a ∈ insertByTime r l ↔ a = r ∨ a ∈ l := by
  induction l with
  | nil => simp [insertByTime]
  | cons x xs ih =>
    unfold insertByTime
    split
    · simp
    · rw [List.mem_cons, ih, List.mem_cons]
      tauto

theorem length_insertByTime (r : DispatchRow) :
    ∀ l : List DispatchRow, (insertByTime r l).length = l.length + 1 := by
  intro l
  induction l with
  | nil => rfl
  | cons x xs ih =>
    unfold insertByTime
    split
    · rfl
    · rw [List.length_cons, ih, List.length_cons]

theorem mem_sortByTime {a : DispatchRow} {l : List DispatchRow} :
    a ∈ sortByTime l ↔ a ∈ l := by
  induction l with
  | nil => exact Iff.rfl
  | cons x xs ih =>
    show a ∈ insertByTime x (sortByTime xs) ↔ _
    rw [mem_insertByTime, ih, List.mem_cons]

theorem length_sortByTime :
    ∀ l : List DispatchRow, (sortByTime l).length = l.length := by
  intro l
  induction l with
  | nil => rfl
  | cons x xs ih =>
    show (insertByTime x (sortByTime xs)).length = _
    rw [length_insertByTime, ih, List.length_cons]

theorem mem_dispatchBatch {s : Store} {now : Instant} {r : DispatchRow}
    (h : r ∈ dispatchBatch s now) : r ∈ dueRows s now := by
  unfold dispatchBatch at h
  exact mem_sortByTime.mp ((List.take_sublist _ _).subset h)

theorem isDue_sent_at_none {n : Notification} {now : Instant}
    (h : isDue n now = true) : n.sent_at = none := by
  unfold isDue at h
  rw [Bool.and_eq_true, beq_iff_eq] at h
  exact h.2

theorem isDue_scheduled_le {n : Notification} {now : Instant}
    (h : isDue n now = true) : ∃ x, n.scheduled_at = some x ∧ x ≤ now := by
  unfold isDue at h
  rw [Bool.and_eq_true] at h
  rcases h with ⟨h1, _⟩
  cases hx : n.scheduled_at with
  | none => rw [hx] at h1; cases h1
  | some x =>
    rw [hx] at h1
    exact ⟨x, rfl, by simpa using h1⟩

theorem mem_deliveredIds {batch : List DispatchRow} {sendOk : Nat → Bool}
    {i : Nat} (h : i ∈ deliveredIds batch sendOk) :
    ∃ r ∈ batch, r.notif.id = i ∧ r.user.tg_id ≠ none ∧ sendOk i = true := by
  unfold deliveredIds at h
  rcases List.mem_map.mp h with ⟨r, hr, rfl⟩
  rcases List.mem_filter.mp hr with ⟨hrb, hcond⟩
  rw [Bool.and_eq_true] at hcond
  refine ⟨r, hrb, rfl, ?_, hcond.2⟩
  have := hcond.1
  rw [Bool.not_eq_eq_eq_not] at this
  simp only [Bool.not_true] at this
  intro hc
  rw [hc] at this
  simp at this

theorem deliveredIds_mem {batch : List DispatchRow} {sendOk : Nat → Bool}
    {r : DispatchRow} (hr : r ∈ batch) (htg : r.user.tg_id ≠ none)
    (hok : sendOk r.notif.id = true) :
    r.notif.id ∈ deliveredIds batch sendOk := by
  unfold deliveredIds
  refine List.mem_map.mpr ⟨r, List.mem_filter.mpr ⟨hr, ?_⟩, rfl⟩
  rw [Bool.and_eq_true]
  refine ⟨?_, hok⟩
  cases htg' : r.user.tg_id with
  | none => exact absurd htg' htg
  | some v => simp

theorem process_notifications_notifications (s : Store) (now : Instant)
    (sendOk : Nat → Bool) :
    (process_notifications s now sendOk).notifications
      = if (dispatchBatch s now).isEmpty then s.notifications
        else s.notifications.map (fun n =>
          if (deliveredIds (dispatchBatch s now) sendOk).contains n.id
          then { n with sent_at := some now } else n) := by
  unfold process_notifications
  by_cases h : (dispatchBatch s now).isEmpty <;> simp [h]

theorem process_notifications_users (s : Store) (now : Instant)
    (sendOk : Nat → Bool) :
    (process_notifications s now sendOk).users = s.users := by
  unfold process_notifications
  by_cases h : (dispatchBatch s now).isEmpty <;> simp [h]

theorem process_notifications_meetings (s : Store) (now : Instant)
    (sendOk : Nat → Bool) :
    (process_notifications s now sendOk).meetings = s.meetings := by
  unfold process_notifications
  by_cases h : (dispatchBatch s now).isEmpty <;> simp [h]

theorem process_preserves_sent {s : Store} {now : Instant} {sendOk : Nat → Bool}
    {i : Nat} {t : Instant}
    (hsent : ∀ n ∈ s.notifications, n.id = i → n.sent_at = some t) :
    ∀ n ∈ (process_notifications s now sendOk).notifications, n.id = i →
      n.sent_at = some t := by
  intro n hn hni
  rw [process_notifications_notifications] at hn
  split at hn
  · exact hsent n hn hni
  · rcases List.mem_map.mp hn with ⟨n0, hn0, rfl⟩
    by_cases hc : (deliveredIds (dispatchBatch s now) sendOk).contains n0.id
    · exfalso
      rw [if_pos hc] at hni
      rcases mem_deliveredIds (List.contains_iff_exists_mem_beq.mp hc |>.elim
        (fun a ha => by
          rw [beq_iff_eq] at ha
          exact ha.2 ▸ ha.1)) with ⟨r, hrb, hrid, _, _⟩
      rcases mem_dueRows (mem_dispatchBatch hrb) with ⟨hmem, hdue, _⟩
      have h1 := hsent r.notif hmem (by rw [hrid]; exact hni)
      rw [isDue_sent_at_none hdue] at h1
      cases h1
    · rw [if_neg hc] at hni ⊢
      exact hsent n0 hn0 hni

theorem schedLe_trans : ∀ (a b c : Notification), schedLe a b = true →
    schedLe b c = true → schedLe a c = true := by
  intro a b c h1 h2
  revert h1 h2
  unfold schedLe
  cases a.scheduled_at <;> cases b.scheduled_at <;> cases c.scheduled_at <;>
    simp
  intro h1 h2
  exact le_trans h1 h2

theorem schedLe_total : ∀ (a b : Notification),
    (schedLe a b || schedLe b a) = true := by
  intro a b
  unfold schedLe
  cases a.scheduled_at <;> cases b.scheduled_at <;> simp
  exact Int.le_total _ _

theorem sorted_insertByTime {r : DispatchRow} {l : List DispatchRow}
    (h : l.Pairwise (fun a b => schedLe a.notif b.notif = true)) :
    (insertByTime r l).Pairwise
      (fun a b => schedLe a.notif b.notif = true) := by
  induction l with
  | nil => simp [insertByTime]
  | cons x xs ih =>
    rcases List.pairwise_cons.mp h with ⟨hx, hxs⟩
    unfold insertByTime
    split
    · rename_i hle
      refine List.pairwise_cons.mpr ⟨?_, h⟩
      intro b hb
      rcases List.mem_cons.mp hb with rfl | hbx
      · exact hle
      · exact schedLe_trans _ _ _ hle (hx b hbx)
    · rename_i hnle
      refine List.pairwise_cons.mpr ⟨?_, ih hxs⟩
      intro b hb
      rcases mem_insertByTime.mp hb with heq | hbx
      · rw [heq]
        have htot := schedLe_total r.notif x.notif
        rw [Bool.or_eq_true] at htot
        rcases htot with h1 | h1
        · exact absurd h1 hnle
        · exact h1
      · exact hx b hbx

theorem sorted_sortByTime (l : List DispatchRow) :
    (sortByTime l).Pairwise (fun a b => schedLe a.notif b.notif = true) := by
  induction l with
  | nil => exact List.Pairwise.nil
  | cons x xs ih => exact sorted_insertByTime ih

theorem dispatchBatch_sorted (s : Store) (now : Instant) :
    ((dispatchBatch s now).map (fun r => r.notif)).Pairwise
      (fun a b => schedLe a b = true) := by
  unfold dispatchBatch
  exact List.Pairwise.map _ (fun a b h => h)
    (List.Pairwise.take (sorted_sortByTime _))

theorem dueRows_map_notif {s : Store} {now : Instant}
    (hjoin : ∀ n ∈ s.notifications, (joinRow s n).isSome = true) :
    (dueRows s now).map (fun r => r.notif)
      = s.notifications.filter (fun n => isDue n now) := by
  unfold dueRows
  have hgen : ∀ l : List Notification,
      (∀ n ∈ l, (joinRow s n).isSome = true) →
      (l.filterMap (fun n => if isDue n now then joinRow s n else none)).map
          (fun r => r.notif)
        = l.filter (fun n => isDue n now) := by
    intro l hl
    induction l with
    | nil => rfl
    | cons n ns ih =>
      rw [List.filterMap_cons, List.filter_cons]
      by_cases hd : isDue n now
      · rw [if_pos hd, if_pos hd]
        cases hj : joinRow s n with
        | none =>
          have hsome := hl n (List.mem_cons_self n ns)
          rw [hj] at hsome
          cases hsome
        | some r =>
          rw [List.map_cons, joinRow_notif hj,
            ih (fun x hx => hl x (List.mem_cons_of_mem n hx))]
      · rw [if_neg hd, if_neg hd]
        exact ih (fun x hx => hl x (List.mem_cons_of_mem n hx))
  exact hgen s.notifications hjoin

theorem process_notifications_noop {s : Store} {now : Instant}
    (hempty : dueRows s now = []) (sendOk : Nat → Bool) :
    process_notifications s now sendOk = s := by
  have hb : dispatchBatch s now = [] := by
    unfold dispatchBatch
    rw [hempty]
    rfl
  unfold process_notifications
  simp [hb]

theorem find_notif_eq {s : Store} (hids : NIdsUnique s) {n : Notification}
    {i : Nat} (hn : n ∈ s.notifications) (hni : n.id = i) :
    s.notifications.find? (fun x => x.id == i) = some n := by
  cases hf : s.notifications.find? (fun x => x.id == i) with
  | none =>
    rw [List.find?_eq_none] at hf
    have := hf n hn
    rw [beq_iff_eq] at this
    exact absurd hni this
  | some x =>
    have hxp := List.find?_some hf
    rw [beq_iff_eq] at hxp
    by_cases heq : x = n
    · exact congrArg some heq
    · exfalso
      exact absurd (hxp.trans hni.symm)
        (pairwise_ne_of_mem (fun hab => Ne.symm hab) hids
          (List.mem_of_find?_eq_some hf) hn heq)

theorem notif_eq_of_id {s : Store} (hids : NIdsUnique s) {a b : Notification}
    (ha : a ∈ s.notifications) (hb : b ∈ s.notifications) (h : a.id = b.id) :
    a = b := by
  by_cases hab : a = b
  · exact hab
  · exact absurd h (pairwise_ne_of_mem (fun x => Ne.symm x) hids ha hb hab)

theorem on_snooze_eq {s : Store} (hids : NIdsUnique s) {i : Nat}
    {n : Notification} (hn : n ∈ s.notifications) (hni : n.id = i)
    {t : Instant} (hsched : n.scheduled_at = some t) (minutes : Int) :
    on_snooze s i minutes
      = { s with notifications := s.notifications.map (fun n' =>
          if n'.id = i then
            { n' with
              scheduled_at := some (t + 60 * minutes), sent_at := none }
          else n') } := by
  unfold on_snooze
  rw [find_notif_eq hids hn hni]
  simp only [hsched]

theorem on_ack_eq {s : Store} (hids : NIdsUnique s) {i : Nat}
    {n : Notification} (hn : n ∈ s.notifications) (hni : n.id = i)
    (now : Instant) :
    on_ack s i now
      = { s with notifications := s.notifications.map (fun n' =>
          if n'.id = i then
            { n' with
              status := some "ack", sent_at := some (n'.sent_at.getD now) }
          else n') } := by
  unfold on_ack
  rw [find_notif_eq hids hn hni]

theorem notifCount_upsert (s : Store) (uid : Nat) (eid : String)
    (ti : Option String) (st : Instant) (en : Option Instant)
    (lo de : Option String) (mid : Nat) (t : Instant) :
    notifCount (upsert_meeting s uid eid ti st en lo de).1 mid t
      = notifCount s mid t := by
  unfold notifCount
  rw [upsert_meeting_notifications]

/-! ## Claim theorems -/

/-- Claim C2: reconciliation is idempotent — running the reconcile step twice with
the same provider output leaves the store in the same state as running it
once; the result holds exactly one Meeting row per (account id, external_id)
key occurring in the output, carrying the fields of the last event seen with
that external id, and no duplicate Notification row for any
(meeting id, scheduled fire time) pair. -/
theorem reconcile_idempotent {s : Store} (hinv : StoreInv s) (now : Instant)
    (uid : Nat) (evs : List UnifiedEvent) :
    reconcile_account (reconcile_account s now uid evs) now uid evs
      = reconcile_account s now uid evs ∧
    (∀ e ∈ evs,
      meetingCount (reconcile_account s now uid evs) uid e.id = 1 ∧
      ∃ e', lastEvent evs e.id = some e' ∧
        ∀ m ∈ (reconcile_account s now uid evs).meetings,
          m.user_id = uid → m.external_id = some e.id →
          m.title = e'.title ∧ m.start_at = some e'.start_at ∧
          m.end_at = some e'.end_at ∧ m.location = e'.location ∧
          m.description = e'.description) ∧
    (∀ mid t, notifCount (reconcile_account s now uid evs) mid t ≤ 1) := by
  have hinvr := StoreInv_reconcile_account hinv now uid evs
  refine ⟨reconcile_account_idem hinv now uid evs, ?_, ?_⟩
  · intro e he
    constructor
    · rcases reconcile_account_contains hinv now uid evs e he with
        ⟨mid, hmid, _, _⟩
      have hfind : ∃ m, findMeeting (reconcile_account s now uid evs) uid e.id
          = some m := by
        cases hf : findMeeting (reconcile_account s now uid evs) uid e.id with
        | none => rw [meetingIdFor, hf] at hmid; cases hmid
        | some m => exact ⟨m, rfl⟩
      rcases hfind with ⟨m, hm⟩
      have hm2 : List.find?
          (fun m => m.user_id == uid && m.external_id == some e.id)
          (reconcile_account s now uid evs).meetings = some m := hm
      have hpm := List.find?_some hm2
      have hmem : m ∈ List.filter
          (fun m => m.user_id == uid && m.external_id == some e.id)
          (reconcile_account s now uid evs).meetings :=
        List.mem_filter.mpr ⟨List.mem_of_find?_eq_some hm2, hpm⟩
      have h1 : 0 < meetingCount (reconcile_account s now uid evs) uid e.id :=
        List.length_pos.mpr (List.ne_nil_of_mem hmem)
      have h2 := meetingCount_le_one hinvr.2.2.1 uid e.id
      omega
    · cases hlast : lastEvent evs e.id with
      | none => exact absurd hlast (lastEvent_isSome_of_mem he rfl)
      | some e' =>
        refine ⟨e', rfl, ?_⟩
        rcases reconcile_account_last_fields hinv now uid evs e.id e' hlast
          with ⟨m', hm', ht', hst', hen', hlo', hde'⟩
        intro m hm hu hx
        have : findMeeting (reconcile_account s now uid evs) uid e.id
            = some m := findMeeting_eq_of_mem hinvr.2.2.1 hm hu hx
        rw [hm'] at this
        have hmm : m = m' := (Option.some_injective _ this).symm
        subst hmm
        exact ⟨ht', hst', hen', hlo', hde'⟩
  · intro mid t
    exact notifCount_le_one hinvr.2.2.2.2.2 mid t

/-- Claim C3: for every upserted meeting the reconciler ensures one reminder per
configured offset (1 day and 1 hour before start) keyed at fire time
`start − offset`: a row is inserted only when none exists for that
(meeting id, fire time) pair, a fire time at or before the current instant is
skipped with nothing inserted, and no duplicate ever arises. -/
theorem reminder_policy {s : Store} (hinv : StoreInv s) (now : Instant)
    (uid : Nat) (e : UnifiedEvent) :
    ∃ mid, meetingIdFor (reconcile_event s now uid e) uid e.id = some mid ∧
      (∀ d ∈ [dayOffset, hourOffset],
        notifCount (reconcile_event s now uid e) mid (e.start_at - d)
          = if e.start_at - d ≤ now then notifCount s mid (e.start_at - d)
            else 1) ∧
      (∀ mid' t', notifCount (reconcile_event s now uid e) mid' t' ≤ 1) := by
  have hfire : e.start_at - dayOffset ≠ e.start_at - hourOffset := by
    intro hc
    rw [dayOffset, hourOffset, sub_right_inj] at hc
    cases hc
  rcases findMeeting_upsert_self s uid e.id e.title e.start_at (some e.end_at)
    e.location e.description with ⟨m', hfindup, hid, _, _, _, _, _, _, _⟩
  have hnkuS0 : NKeyUnique (upsert_meeting s uid e.id e.title e.start_at
      (some e.end_at) e.location e.description).1 :=
    NKeyUnique_upsert hinv.2.2.2.2.2 uid e.id e.title e.start_at
      (some e.end_at) e.location e.description
  refine ⟨m'.id, ?_, ?_, ?_⟩
  · show (findMeeting (ensure_notification (ensure_notification
        (upsert_meeting s uid e.id e.title e.start_at (some e.end_at)
          e.location e.description).1 now
        (upsert_meeting s uid e.id e.title e.start_at (some e.end_at)
          e.location e.description).2 uid (e.start_at - dayOffset)) now
        (upsert_meeting s uid e.id e.title e.start_at (some e.end_at)
          e.location e.description).2 uid (e.start_at - hourOffset))
        uid e.id).map (fun m => m.id) = some m'.id
    rw [findMeeting_ensure, findMeeting_ensure, hfindup, Option.map_some']
  · intro d hd
    show notifCount (ensure_notification (ensure_notification
        (upsert_meeting s uid e.id e.title e.start_at (some e.end_at)
          e.location e.description).1 now
        (upsert_meeting s uid e.id e.title e.start_at (some e.end_at)
          e.location e.description).2 uid (e.start_at - dayOffset)) now
        (upsert_meeting s uid e.id e.title e.start_at (some e.end_at)
          e.location e.description).2 uid (e.start_at - hourOffset))
        m'.id (e.start_at - d) = _
    have hdd : d = dayOffset ∨ d = hourOffset := by
      rcases List.mem_cons.mp hd with h | h
      · exact Or.inl h
      · rcases List.mem_cons.mp h with h' | h'
        · exact Or.inr h'
        · cases h'
    rw [hid]
    rcases hdd with rfl | rfl
    · rw [notifCount_ensure_other (fun hc => hfire hc.2)]
      by_cases hpast : e.start_at - dayOffset ≤ now
      · rw [ensure_notification_of_past hpast, if_pos hpast,
          notifCount_upsert]
      · rw [if_neg hpast]
        exact notifCount_ensure_self hpast (notifCount_le_one hnkuS0 _ _)
    · by_cases hpast : e.start_at - hourOffset ≤ now
      · rw [ensure_notification_of_past hpast,
          notifCount_ensure_other (fun hc => hfire hc.2.symm), if_pos hpast,
          notifCount_upsert]
      · rw [if_neg hpast]
        exact notifCount_ensure_self hpast
          (notifCount_le_one (NKeyUnique_ensure hnkuS0) _ _)
  · intro mid' t'
    exact notifCount_le_one
      (StoreInv_reconcile_event hinv now uid e).2.2.2.2.2 mid' t'

/-! ## Concrete fixtures used by the witnesses -/

theorem reconcile_idempotent_witness :
    StoreInv wStore ∧
    (reconcile_account (reconcile_account wStore 0 1 [wEvA, wEvB]) 0 1
        [wEvA, wEvB]
      = reconcile_account wStore 0 1 [wEvA, wEvB] ∧
    (∀ e ∈ [wEvA, wEvB],
      meetingCount (reconcile_account wStore 0 1 [wEvA, wEvB]) 1 e.id = 1 ∧
      ∃ e', lastEvent [wEvA, wEvB] e.id = some e' ∧
        ∀ m ∈ (reconcile_account wStore 0 1 [wEvA, wEvB]).meetings,
          m.user_id = 1 → m.external_id = some e.id →
          m.title = e'.title ∧ m.start_at = some e'.start_at ∧
          m.end_at = some e'.end_at ∧ m.location = e'.location ∧
          m.description = e'.description) ∧
    (∀ mid t, notifCount (reconcile_account wStore 0 1 [wEvA, wEvB]) mid t
      ≤ 1)) :=
  ⟨by decide, reconcile_idempotent (by decide) 0 1 [wEvA, wEvB]⟩

theorem reminder_policy_witness :
    StoreInv wStore ∧
    (∃ mid, meetingIdFor (reconcile_event wStore 0 1 wEvA) 1 wEvA.id
        = some mid ∧
      (∀ d ∈ [dayOffset, hourOffset],
        notifCount (reconcile_event wStore 0 1 wEvA) mid (wEvA.start_at - d)
          = if wEvA.start_at - d ≤ 0 then
              notifCount wStore mid (wEvA.start_at - d)
            else 1) ∧
      (∀ mid' t', notifCount (reconcile_event wStore 0 1 wEvA) mid' t'
        ≤ 1)) :=
  ⟨by decide, reminder_policy (by decide) 0 1 wEvA⟩

/-- Claim C4: once a notification's sent time is set, no later dispatch pass selects
or re-sends it — its sent time survives any sequence of dispatch passes —
unless a snooze is applied, which clears the sent time (making it selectable
again once due). -/
theorem sent_never_reselected {s : Store} {i : Nat} {t : Instant}
    (hsent : ∀ n ∈ s.notifications, n.id = i → n.sent_at = some t)
    (hsched : ∀ n ∈ s.notifications, n.id = i → n.scheduled_at ≠ none) :
    (∀ now, ∀ r ∈ dispatchBatch s now, r.notif.id ≠ i) ∧
    (∀ passes : List (Instant × (Nat → Bool)),
      ∀ n ∈ (dispatchPasses s passes).notifications, n.id = i →
        n.sent_at = some t) ∧
    (∀ minutes, ∀ n ∈ (on_snooze s i minutes).notifications, n.id = i →
      n.sent_at = none) := by
  refine ⟨?_, ?_, ?_⟩
  · intro now r hr hri
    rcases mem_dueRows (mem_dispatchBatch hr) with ⟨hmem, hdue, _⟩
    have h1 := hsent r.notif hmem hri
    rw [isDue_sent_at_none hdue] at h1
    cases h1
  · have key : ∀ (passes : List (Instant × (Nat → Bool))) (s' : Store),
        (∀ n ∈ s'.notifications, n.id = i → n.sent_at = some t) →
        ∀ n ∈ (dispatchPasses s' passes).notifications, n.id = i →
          n.sent_at = some t := by
      intro passes
      induction passes with
      | nil => intro s' hs'; exact hs'
      | cons p ps ih =>
        intro s' hs'
        exact ih _ (process_preserves_sent hs')
    exact fun passes => key passes s hsent
  · intro minutes n hn hni
    unfold on_snooze at hn
    cases hfind : s.notifications.find? (fun x => x.id == i) with
    | none =>
      rw [hfind] at hn
      rw [List.find?_eq_none] at hfind
      have hmem : n ∈ s.notifications := hn
      exact absurd (by rw [hni]; exact beq_self_eq_true i) (hfind n hmem)
    | some nf =>
      have hnf := List.find?_some hfind
      rw [beq_iff_eq] at hnf
      have hnfmem := List.mem_of_find?_eq_some hfind
      cases hsf : nf.scheduled_at with
      | none => exact absurd hsf (hsched nf hnfmem hnf)
      | some t' =>
        rw [hfind] at hn
        simp only [hsf] at hn
        rcases List.mem_map.mp hn with ⟨n0, hn0, rfl⟩
        by_cases h0 : n0.id = i
        · simp [h0]
        · simp only [if_neg h0] at hni
          exact absurd hni h0

theorem sent_never_reselected_witness :
    (∀ n ∈ wSentStore.notifications, n.id = 1 → n.sent_at = some 113700) ∧
    (∀ n ∈ wSentStore.notifications, n.id = 1 → n.scheduled_at ≠ none) ∧
    ((∀ now, ∀ r ∈ dispatchBatch wSentStore now, r.notif.id ≠ 1) ∧
    (∀ passes : List (Instant × (Nat → Bool)),
      ∀ n ∈ (dispatchPasses wSentStore passes).notifications, n.id = 1 →
        n.sent_at = some 113700) ∧
    (∀ minutes, ∀ n ∈ (on_snooze wSentStore 1 minutes).notifications,
      n.id = 1 → n.sent_at = none)) :=
  ⟨by decide, by decide, sent_never_reselected (by decide) (by decide)⟩

theorem contains_iff_mem {l : List Nat} {x : Nat} :
    l.contains x = true ↔ x ∈ l := by
  constructor
  · intro h
    rcases List.contains_iff_exists_mem_beq.mp h with ⟨b, hb, he⟩
    rw [beq_iff_eq] at he
    exact he ▸ hb
  · intro h
    exact List.contains_iff_exists_mem_beq.mpr ⟨x, h, by simp⟩

/-- Claim C5: a dispatch pass selects exactly the notifications with
`scheduled_at ≤ now` and NULL `sent_at` (up to the batch limit of 20),
processes them in ascending order of `scheduled_at`, and when none are due
the pass leaves the store untouched. -/
theorem dispatch_selection {s : Store} (now : Instant)
    (hjoin : ∀ n ∈ s.notifications, (joinRow s n).isSome = true) :
    ((dispatchBatch s now).map (fun r => r.notif)).Pairwise
      (fun a b => ∀ x y, a.scheduled_at = some x → b.scheduled_at = some y →
        x ≤ y) ∧
    (dispatchBatch s now).length ≤ 20 ∧
    (∀ r ∈ dispatchBatch s now,
      r.notif ∈ s.notifications ∧ isDue r.notif now = true) ∧
    ((s.notifications.filter (fun n => isDue n now)).length ≤ 20 →
      ∀ n ∈ s.notifications, isDue n now = true →
        ∃ r ∈ dispatchBatch s now, r.notif = n) ∧
    (s.notifications.filter (fun n => isDue n now) = [] →
      ∀ sendOk, process_notifications s now sendOk = s) := by
  have hlen : (dueRows s now).length
      = (s.notifications.filter (fun n => isDue n now)).length := by
    rw [← dueRows_map_notif hjoin, List.length_map]
  refine ⟨?_, ?_, ?_, ?_, ?_⟩
  · refine (dispatchBatch_sorted s now).imp ?_
    intro a b h x y hx hy
    unfold schedLe at h
    rw [hx, hy] at h
    simpa using h
  · exact List.length_take_le batch_limit (sortByTime (dueRows s now))
  · intro r hr
    rcases mem_dueRows (mem_dispatchBatch hr) with ⟨h1, h2, _⟩
    exact ⟨h1, h2⟩
  · intro hle n hn hdue
    rcases Option.isSome_iff_exists.mp (hjoin n hn) with ⟨r, hj⟩
    have hrdue : r ∈ dueRows s now := by
      unfold dueRows
      exact List.mem_filterMap.mpr ⟨n, hn, by rw [if_pos hdue]; exact hj⟩
    have hrsort : r ∈ sortByTime (dueRows s now) := mem_sortByTime.mpr hrdue
    have hall : dispatchBatch s now = sortByTime (dueRows s now) := by
      unfold dispatchBatch
      refine List.take_of_length_le ?_
      rw [length_sortByTime, hlen]
      exact hle
    exact ⟨r, hall ▸ hrsort, joinRow_notif hj⟩
  · intro hnil sendOk
    refine process_notifications_noop ?_ sendOk
    have := @dueRows_map_notif s now hjoin
    rw [hnil] at this
    exact List.map_eq_nil_iff.mp this

theorem dispatch_selection_witness :
    (∀ n ∈ wDueStore.notifications, (joinRow wDueStore n).isSome = true) ∧
    (((dispatchBatch wDueStore 200000).map (fun r => r.notif)).Pairwise
      (fun a b => ∀ x y, a.scheduled_at = some x → b.scheduled_at = some y →
        x ≤ y) ∧
    (dispatchBatch wDueStore 200000).length ≤ 20 ∧
    (∀ r ∈ dispatchBatch wDueStore 200000,
      r.notif ∈ wDueStore.notifications ∧ isDue r.notif 200000 = true) ∧
    ((wDueStore.notifications.filter (fun n => isDue n 200000)).length ≤ 20 →
      ∀ n ∈ wDueStore.notifications, isDue n 200000 = true →
        ∃ r ∈ dispatchBatch wDueStore 200000, r.notif = n) ∧
    (wDueStore.notifications.filter (fun n => isDue n 200000) = [] →
      ∀ sendOk, process_notifications wDueStore 200000 sendOk
        = wDueStore)) :=
  ⟨by decide, dispatch_selection 200000 (by decide)⟩

/-- Claim C6: within one dispatch pass, a channel-send failure (or missing chat id)
for one notification leaves its sent time NULL — it stays pending for a later
pass — while every other successfully delivered notification of the same
batch still gets its sent time set to the pass's `now`.  The two clauses hold
simultaneously for all rows of one batch, which is the failure isolation. -/
theorem dispatch_failure_isolation {s : Store} {now : Instant}
    {sendOk : Nat → Bool} (hids : NIdsUnique s) {r : DispatchRow}
    (hr : r ∈ dispatchBatch s now) :
    ((sendOk r.notif.id = false ∨ r.user.tg_id = none) →
      ∀ n ∈ (process_notifications s now sendOk).notifications,
        n.id = r.notif.id → n.sent_at = none) ∧
    (sendOk r.notif.id = true → r.user.tg_id ≠ none →
      ∀ n ∈ (process_notifications s now sendOk).notifications,
        n.id = r.notif.id → n.sent_at = some now) := by
  rcases mem_dueRows (mem_dispatchBatch hr) with ⟨hmem, hdue, hjr⟩
  have hbne : ¬ (dispatchBatch s now).isEmpty = true := by
    cases hb : dispatchBatch s now with
    | nil => rw [hb] at hr; cases hr
    | cons a l => simp [hb]
  constructor
  · intro hfail n hn hni
    rw [process_notifications_notifications, if_neg hbne] at hn
    rcases List.mem_map.mp hn with ⟨n0, hn0, rfl⟩
    have hid0 : (if (deliveredIds (dispatchBatch s now) sendOk).contains n0.id
        then { n0 with sent_at := some now } else n0).id = n0.id := by
      split <;> rfl
    rw [hid0] at hni
    have hnotin : ¬ (deliveredIds (dispatchBatch s now) sendOk).contains
        n0.id = true := by
      intro hc
      rcases mem_deliveredIds (contains_iff_mem.mp hc) with
        ⟨r', hr', hr'id, hr'tg, hr'ok⟩
      rcases mem_dueRows (mem_dispatchBatch hr') with ⟨hmem', hdue', hjr'⟩
      have hnn : r'.notif = r.notif :=
        notif_eq_of_id hids hmem' hmem (by rw [hr'id, hni])
      have hrr : r' = r := by
        have := hjr'
        rw [hnn, hjr] at this
        exact (Option.some_injective _ this).symm
      rcases hfail with hf | hf
      · rw [hni] at hr'ok
        rw [hr'ok] at hf
        cases hf
      · rw [hrr] at hr'tg
        exact hr'tg hf
    rw [if_neg hnotin]
    have hn0r : n0 = r.notif := notif_eq_of_id hids hn0 hmem hni
    rw [hn0r]
    exact isDue_sent_at_none hdue
  · intro hok htg n hn hni
    rw [process_notifications_notifications, if_neg hbne] at hn
    rcases List.mem_map.mp hn with ⟨n0, hn0, rfl⟩
    have hid0 : (if (deliveredIds (dispatchBatch s now) sendOk).contains n0.id
        then { n0 with sent_at := some now } else n0).id = n0.id := by
      split <;> rfl
    rw [hid0] at hni
    have hin : (deliveredIds (dispatchBatch s now) sendOk).contains n0.id
        = true := by
      rw [hni]
      exact contains_iff_mem.mpr (deliveredIds_mem hr htg hok)
    rw [if_pos hin]

theorem dispatch_failure_isolation_witness :
    NIdsUnique wFailStore ∧
    (⟨⟨1, 1, some 1, some 113600, none, none, some "telegram"⟩, wUser,
      ⟨1, 1, some "Standup", some 200000, some 203600, none, none, some "a"⟩⟩ :
        DispatchRow) ∈ dispatchBatch wFailStore 200000 ∧
    ((((fun j => j == 2) : Nat → Bool) 1 = false ∨ wUser.tg_id = none →
      ∀ n ∈ (process_notifications wFailStore 200000
          (fun j => j == 2)).notifications,
        n.id = 1 → n.sent_at = none) ∧
    ((fun j => j == 2) 1 = true → wUser.tg_id ≠ none →
      ∀ n ∈ (process_notifications wFailStore 200000
          (fun j => j == 2)).notifications,
        n.id = 1 → n.sent_at = some 200000)) := by
  refine ⟨by decide, by decide, ?_⟩
  exact @dispatch_failure_isolation wFailStore 200000 (fun j => j == 2)
    (by decide)
    ⟨⟨1, 1, some 1, some 113600, none, none, some "telegram"⟩, wUser,
      ⟨1, 1, some "Standup", some 200000, some 203600, none, none, some "a"⟩⟩
    (by decide)

theorem joinRow_isSome_congr {s s' : Store} (hu : s'.users = s.users)
    (hm : s'.meetings = s.meetings) {a b : Notification}
    (hau : a.user_id = b.user_id) (ham : a.meeting_id = b.meeting_id) :
    (joinRow s' a).isSome = (joinRow s b).isSome := by
  unfold joinRow
  rw [hu, hm, hau, ham]
  cases s.users.find? (fun u => u.id == b.user_id) <;>
    cases b.meeting_id.bind
      (fun mid => s.meetings.find? (fun m => m.id == mid)) <;> rfl

/-- Claim C7: snoozing an existing notification by N minutes sets its scheduled
time to the old one plus N minutes, clears its sent time, and changes no
other field and no other row; the row is not selectable while the new
scheduled time is in the future, and is due again once it is reached. -/
theorem snooze_rearm {s : Store} (hids : NIdsUnique s) {i : Nat}
    {n : Notification} (hn : n ∈ s.notifications) (hni : n.id = i)
    {t : Instant} (hsched : n.scheduled_at = some t)
    (hjoinn : (joinRow s n).isSome = true) (minutes : Int) :
    (on_snooze s i minutes).users = s.users ∧
    (on_snooze s i minutes).meetings = s.meetings ∧
    (on_snooze s i minutes).notifications = s.notifications.map (fun n' =>
      if n'.id = i then
        { n' with
          scheduled_at := some (t + 60 * minutes), sent_at := none }
      else n') ∧
    (∀ n' ∈ (on_snooze s i minutes).notifications, n'.id = i →
      n' = { n with
             scheduled_at := some (t + 60 * minutes), sent_at := none }) ∧
    (∀ now, now < t + 60 * minutes →
      ∀ r ∈ dispatchBatch (on_snooze s i minutes) now, r.notif.id ≠ i) ∧
    (∀ now, t + 60 * minutes ≤ now →
      ∃ r ∈ dueRows (on_snooze s i minutes) now, r.notif.id = i) := by
  have heq := on_snooze_eq hids hn hni hsched minutes
  have hnotifs : (on_snooze s i minutes).notifications
      = s.notifications.map (fun n' =>
        if n'.id = i then
          { n' with
            scheduled_at := some (t + 60 * minutes), sent_at := none }
        else n') := by
    rw [heq]
  have husers : (on_snooze s i minutes).users = s.users := by rw [heq]
  have hmeet : (on_snooze s i minutes).meetings = s.meetings := by rw [heq]
  have hpoint : ∀ n' ∈ (on_snooze s i minutes).notifications, n'.id = i →
      n' = { n with
             scheduled_at := some (t + 60 * minutes), sent_at := none } := by
    intro n' hn' hn'i
    rw [hnotifs] at hn'
    rcases List.mem_map.mp hn' with ⟨n0, hn0, rfl⟩
    by_cases h0 : n0.id = i
    · rw [if_pos h0]
      have : n0 = n := notif_eq_of_id hids hn0 hn (by rw [h0, hni])
      rw [this]
    · rw [if_neg h0] at hn'i
      exact absurd hn'i h0
  refine ⟨husers, hmeet, hnotifs, hpoint, ?_, ?_⟩
  · intro now hnow r hr hri
    rcases mem_dueRows (mem_dispatchBatch hr) with ⟨hmem, hdue, _⟩
    have := hpoint r.notif hmem hri
    rcases isDue_scheduled_le hdue with ⟨x, hx, hxle⟩
    rw [this] at hx
    have hx' : some (t + 60 * minutes) = some x := hx
    have hxeq : x = t + 60 * minutes := (Option.some_injective _ hx').symm
    rw [hxeq] at hxle
    exact absurd hxle (not_le.mpr hnow)
  · intro now hnow
    have hsn : ({ n with
        scheduled_at := some (t + 60 * minutes), sent_at := none }
        : Notification) ∈ (on_snooze s i minutes).notifications := by
      rw [hnotifs]
      exact List.mem_map.mpr ⟨n, hn, by rw [if_pos hni]⟩
    have hdue : isDue { n with
        scheduled_at := some (t + 60 * minutes), sent_at := none } now
        = true := by
      unfold isDue
      simp [hnow]
    have hjs : (joinRow (on_snooze s i minutes) { n with
        scheduled_at := some (t + 60 * minutes), sent_at := none }).isSome
        = true := by
      have h2 : (joinRow (on_snooze s i minutes) { n with
          scheduled_at := some (t + 60 * minutes), sent_at := none }).isSome
          = (joinRow s n).isSome :=
        joinRow_isSome_congr husers hmeet rfl rfl
      rw [h2]
      exact hjoinn
    rcases Option.isSome_iff_exists.mp hjs with ⟨r, hjr⟩
    refine ⟨r, ?_, ?_⟩
    · unfold dueRows
      exact List.mem_filterMap.mpr ⟨_, hsn, by rw [if_pos hdue]; exact hjr⟩
    · rw [joinRow_notif hjr]
      exact hni

theorem snooze_rearm_witness :
    NIdsUnique wSnoozeStore ∧
    (⟨1, 1, some 1, some 113600, some 113700, none, some "telegram"⟩
      : Notification) ∈ wSnoozeStore.notifications ∧
    ((on_snooze wSnoozeStore 1 15).users = wSnoozeStore.users ∧
    (on_snooze wSnoozeStore 1 15).meetings = wSnoozeStore.meetings ∧
    (on_snooze wSnoozeStore 1 15).notifications
      = wSnoozeStore.notifications.map (fun n' =>
        if n'.id = 1 then
          { n' with
            scheduled_at := some (113600 + 60 * 15), sent_at := none }
        else n') ∧
    (∀ n' ∈ (on_snooze wSnoozeStore 1 15).notifications, n'.id = 1 →
      n' = { (⟨1, 1, some 1, some 113600, some 113700, none,
              some "telegram"⟩ : Notification) with
             scheduled_at := some (113600 + 60 * 15), sent_at := none }) ∧
    (∀ now, now < 113600 + 60 * 15 →
      ∀ r ∈ dispatchBatch (on_snooze wSnoozeStore 1 15) now,
        r.notif.id ≠ 1) ∧
    (∀ now, 113600 + 60 * 15 ≤ now →
      ∃ r ∈ dueRows (on_snooze wSnoozeStore 1 15) now, r.notif.id = 1)) :=
  ⟨by decide, by decide,
   @snooze_rearm wSnoozeStore (by decide) 1
     ⟨1, 1, some 1, some 113600, some 113700, none, some "telegram"⟩
     (by decide) (by decide) 113600 (by decide) (by decide) 15⟩

/-- Claim C8: acknowledging an existing notification sets its status to `"ack"` and
sets its sent time to the current instant only when it was previously NULL
(an already-set sent time is kept); its scheduled time and every other field
and row are unchanged, and no delivery is involved (the operation reads and
writes the store only). -/
theorem ack_close {s : Store} (hids : NIdsUnique s) {i : Nat}
    {n : Notification} (hn : n ∈ s.notifications) (hni : n.id = i)
    (now : Instant) :
    (on_ack s i now).users = s.users ∧
    (on_ack s i now).meetings = s.meetings ∧
    (on_ack s i now).notifications = s.notifications.map (fun n' =>
      if n'.id = i then
        { n' with
          status := some "ack", sent_at := some (n'.sent_at.getD now) }
      else n') ∧
    (∀ n' ∈ (on_ack s i now).notifications, n'.id = i →
      n'.status = some "ack" ∧ n'.scheduled_at = n.scheduled_at ∧
      n'.user_id = n.user_id ∧ n'.meeting_id = n.meeting_id ∧
      n'.channel = n.channel ∧ n'.sent_at = some (n.sent_at.getD now)) ∧
    (n.sent_at = none → ∀ n' ∈ (on_ack s i now).notifications, n'.id = i →
      n'.sent_at = some now) ∧
    (∀ u, n.sent_at = some u →
      ∀ n' ∈ (on_ack s i now).notifications, n'.id = i →
        n'.sent_at = some u) := by
  have heq := on_ack_eq hids hn hni now
  have hnotifs : (on_ack s i now).notifications
      = s.notifications.map (fun n' =>
        if n'.id = i then
          { n' with
            status := some "ack", sent_at := some (n'.sent_at.getD now) }
        else n') := by
    rw [heq]
  have hpoint : ∀ n' ∈ (on_ack s i now).notifications, n'.id = i →
      n'.status = some "ack" ∧ n'.scheduled_at = n.scheduled_at ∧
      n'.user_id = n.user_id ∧ n'.meeting_id = n.meeting_id ∧
      n'.channel = n.channel ∧ n'.sent_at = some (n.sent_at.getD now) := by
    intro n' hn' hn'i
    rw [hnotifs] at hn'
    rcases List.mem_map.mp hn' with ⟨n0, hn0, rfl⟩
    by_cases h0 : n0.id = i
    · have hn0n : n0 = n := notif_eq_of_id hids hn0 hn (by rw [h0, hni])
      subst hn0n
      rw [if_pos h0]
      exact ⟨rfl, rfl, rfl, rfl, rfl, rfl⟩
    · rw [if_neg h0] at hn'i
      exact absurd hn'i h0
  refine ⟨by rw [heq], by rw [heq], hnotifs, hpoint, ?_, ?_⟩
  · intro hnone n' hn' hn'i
    have := (hpoint n' hn' hn'i).2.2.2.2.2
    rw [hnone] at this
    exact this
  · intro u hu n' hn' hn'i
    have := (hpoint n' hn' hn'i).2.2.2.2.2
    rw [hu] at this
    exact this

theorem ack_close_witness :
    NIdsUnique wSnoozeStore ∧
    (⟨1, 1, some 1, some 113600, some 113700, none, some "telegram"⟩
      : Notification) ∈ wSnoozeStore.notifications ∧
    ((on_ack wSnoozeStore 1 500000).users = wSnoozeStore.users ∧
    (on_ack wSnoozeStore 1 500000).meetings = wSnoozeStore.meetings ∧
    (on_ack wSnoozeStore 1 500000).notifications
      = wSnoozeStore.notifications.map (fun n' =>
        if n'.id = 1 then
          { n' with
            status := some "ack", sent_at := some (n'.sent_at.getD 500000) }
        else n') ∧
    (∀ n' ∈ (on_ack wSnoozeStore 1 500000).notifications, n'.id = 1 →
      n'.status = some "ack" ∧ n'.scheduled_at = some 113600 ∧
      n'.user_id = 1 ∧ n'.meeting_id = some 1 ∧
      n'.channel = some "telegram" ∧
      n'.sent_at = some ((some (113700 : Instant)).getD 500000)) ∧
    ((some (113700 : Instant) = none) →
      ∀ n' ∈ (on_ack wSnoozeStore 1 500000).notifications, n'.id = 1 →
        n'.sent_at = some 500000) ∧
    (∀ u, some (113700 : Instant) = some u →
      ∀ n' ∈ (on_ack wSnoozeStore 1 500000).notifications, n'.id = 1 →
        n'.sent_at = some u)) :=
  ⟨by decide, by decide,
   @ack_close wSnoozeStore (by decide) 1
     ⟨1, 1, some 1, some 113600, some 113700, none, some "telegram"⟩
     (by decide) (by decide) 500000⟩

/-- Claim C1, amended: provider fetch errors are NOT caught at the per-account
boundary — an error for any account propagates out of the user loop, the
session exits without `commit`, and the whole run is rolled back: no account
(neither before nor after the failing one) has anything persisted by that
run. -/
theorem sync_aborts_on_provider_error {now : Instant}
    {fetch : Nat → Except String (List UnifiedEvent)} {userIds : List Nat}
    {s : Store} (h : ∃ uid ∈ userIds, ∃ msg, fetch uid = Except.error msg) :
    (∃ msg, sync_accounts now fetch s userIds = Except.error msg) ∧
    sync_google_events s now fetch userIds = s := by
  have herr : ∃ msg, sync_accounts now fetch s userIds
      = Except.error msg := by
    induction userIds generalizing s with
    | nil =>
      rcases h with ⟨uid, huid, _⟩
      cases huid
    | cons u rest ih =>
      cases hf : fetch u with
      | error msg =>
        refine ⟨msg, ?_⟩
        unfold sync_accounts
        rw [hf]
      | ok evs =>
        rcases h with ⟨uid, huid, msg, hmsg⟩
        rcases List.mem_cons.mp huid with rfl | hmem
        · rw [hf] at hmsg
          cases hmsg
        · rcases ih ⟨uid, hmem, msg, hmsg⟩ with ⟨msg', hmsg'⟩
          refine ⟨msg', ?_⟩
          unfold sync_accounts
          rw [hf]
          exact hmsg'
  refine ⟨herr, ?_⟩
  rcases herr with ⟨msg, hmsg⟩
  unfold sync_google_events
  rw [hmsg]

/-- Claim C1 counterexample: with two accounts where the first account's provider
fetch raises and the second's succeeds, the run leaves the store untouched —
account 2 is NOT reconciled (no meeting, no reminder is stored for it), even
though reconciling account 2 alone (or the same run with a working fetch)
would have stored its meeting. -/
theorem sync_failure_not_isolated :
    sync_google_events ceStore 0 ceFetch [1, 2] = ceStore ∧
    meetingCount (sync_google_events ceStore 0 ceFetch [1, 2]) 2 "evt-b"
      = 0 ∧
    (sync_google_events ceStore 0 ceFetch [1, 2]).notifications = [] ∧
    meetingCount (sync_google_events ceStore 0
      (fun _ => Except.ok [ceEvent]) [1, 2]) 2 "evt-b" = 1 := by
  decide

theorem sync_aborts_on_provider_error_witness :
    (∃ uid ∈ [1, 2], ∃ msg, ceFetch uid = Except.error msg) ∧
    ((∃ msg, sync_accounts 0 ceFetch ceStore [1, 2] = Except.error msg) ∧
    sync_google_events ceStore 0 ceFetch [1, 2] = ceStore) :=
  ⟨⟨1, by decide, "google auth expired", rfl⟩,
   sync_aborts_on_provider_error
     ⟨1, by decide, "google auth expired", rfl⟩⟩

/-- Claim C9 counterexample: for a provider event whose end is null, `get_events`
raises `ValueError("Invalid Google event datetime format")` instead of
delivering the event, so reconciliation stores NO meeting at all for it — the
store stays empty rather than holding a Meeting with a null end. -/
theorem null_end_event_not_stored :
    unify_items [ceItemNoEnd]
      = Except.error "Invalid Google event datetime format" ∧
    sync_google_events ceStore9 0 (fun _ => unify_items [ceItemNoEnd]) [1]
      = ceStore9 ∧
    (sync_google_events ceStore9 0 (fun _ => unify_items [ceItemNoEnd])
      [1]).meetings = [] :=
  ⟨rfl, rfl, rfl⟩

/-- Claim C9, amended: the Meeting store itself does tolerate a missing end —
`_upsert_meeting` called with a null end stores the row with `end_at` NULL —
but a Google provider event whose end is null or unparseable makes
`_parse_google_datetime` raise, the whole fetch fails, and no Meeting is
stored for any event of that fetch. -/
theorem null_end_tolerated_by_store_but_fetch_raises {s : Store} {uid : Nat}
    {eid : String} (ti : Option String) (st : Instant)
    (lo de : Option String) {items : List GoogleItem}
    (hbad : ∃ it ∈ items, it.endValue = GDateValue.absent ∨
      it.endValue = GDateValue.badDateTime ∨
      it.endValue = GDateValue.badDate) :
    (∃ m', findMeeting (upsert_meeting s uid eid ti st none lo de).1 uid eid
      = some m' ∧ m'.end_at = none) ∧
    (∃ msg, unify_items items = Except.error msg) := by
  constructor
  · rcases findMeeting_upsert_self s uid eid ti st none lo de with
      ⟨m', hm', _, _, _, _, _, hen, _, _⟩
    exact ⟨m', hm', hen⟩
  · induction items with
    | nil =>
      rcases hbad with ⟨it, hit, _⟩
      cases hit
    | cons it rest ih =>
      unfold unify_items
      cases hs : parse_google_datetime it.start with
      | error msg => exact ⟨msg, rfl⟩
      | ok p =>
        rcases hbad with ⟨it', hit', hbad'⟩
        rcases List.mem_cons.mp hit' with rfl | hmem
        · rcases hbad' with hb | hb | hb <;> rw [hb] <;>
            exact ⟨_, rfl⟩
        · rcases ih ⟨it', hmem, hbad'⟩ with ⟨msg, hmsg⟩
          cases he : parse_google_datetime it.endValue with
          | error m2 => exact ⟨m2, rfl⟩
          | ok q =>
            rw [hmsg]
            exact ⟨msg, rfl⟩

theorem null_end_tolerated_witness :
    (∃ it ∈ [ceItemNoEnd], it.endValue = GDateValue.absent ∨
      it.endValue = GDateValue.badDateTime ∨
      it.endValue = GDateValue.badDate) ∧
    ((∃ m', findMeeting (upsert_meeting ceStore9 1 "evt-x" (some "Standup")
        1000 none none none).1 1 "evt-x" = some m' ∧ m'.end_at = none) ∧
    (∃ msg, unify_items [ceItemNoEnd] = Except.error msg)) :=
  ⟨by decide,
   @null_end_tolerated_by_store_but_fetch_raises ceStore9 1 "evt-x"
     (some "Standup") 1000 none none [ceItemNoEnd] (by decide)⟩

/-- Claim C10: reconciliation never deletes or rewrites existing Notification rows
(the notifications table only ever grows, each old row surviving verbatim),
and when a meeting's start moves between two runs the meeting row ends up
with the new start while carrying reminders at BOTH the old fire times and
the new ones — the stale rows are neither deleted nor rescheduled. -/
theorem stale_reminders_accumulate {s : Store} (hinv : StoreInv s)
    (uid : Nat) {e1 e2 : UnifiedEvent} (hid : e2.id = e1.id)
    {now1 now2 : Instant} (hfut1 : now1 < e1.start_at - dayOffset)
    (hfut2 : now2 < e2.start_at - dayOffset) :
    (∀ (s' : Store) (now' : Instant) (uid' : Nat) (evs : List UnifiedEvent),
      ∃ tail, (reconcile_account s' now' uid' evs).notifications
        = s'.notifications ++ tail) ∧
    (∃ mid,
      meetingIdFor (reconcile_event (reconcile_event s now1 uid e1) now2 uid
        e2) uid e1.id = some mid ∧
      notifExists (reconcile_event (reconcile_event s now1 uid e1) now2 uid
        e2) mid (e1.start_at - dayOffset) = true ∧
      notifExists (reconcile_event (reconcile_event s now1 uid e1) now2 uid
        e2) mid (e1.start_at - hourOffset) = true ∧
      notifExists (reconcile_event (reconcile_event s now1 uid e1) now2 uid
        e2) mid (e2.start_at - dayOffset) = true ∧
      notifExists (reconcile_event (reconcile_event s now1 uid e1) now2 uid
        e2) mid (e2.start_at - hourOffset) = true ∧
      ∃ m', findMeeting (reconcile_event (reconcile_event s now1 uid e1)
        now2 uid e2) uid e1.id = some m' ∧
        m'.start_at = some e2.start_at) := by
  have hfh1 : now1 < e1.start_at - hourOffset := by
    unfold dayOffset at hfut1
    unfold hourOffset
    linarith
  have hfh2 : now2 < e2.start_at - hourOffset := by
    unfold dayOffset at hfut2
    unfold hourOffset
    linarith
  refine ⟨reconcile_account_notifications_append, ?_⟩
  have hinv1 := StoreInv_reconcile_event hinv now1 uid e1
  rcases reconcile_event_post s now1 uid e1 with
    ⟨m1, hfind1, _, _, _, _, _, _, _, hday1, hhour1⟩
  rcases reconcile_event_post (reconcile_event s now1 uid e1) now2 uid e2
    with ⟨m2, hfind2, _, _, _, hst2, _, _, _, hday2, hhour2⟩
  rw [hid] at hfind2
  have hmid1 : meetingIdFor (reconcile_event s now1 uid e1) uid e1.id
      = some m1.id := by
    rw [meetingIdFor, hfind1, Option.map_some']
  have hmidr : meetingIdFor (reconcile_event (reconcile_event s now1 uid e1)
      now2 uid e2) uid e1.id = some m1.id :=
    meetingIdFor_reconcile_event_mono hinv1.1 hmid1
  have hm2id : m2.id = m1.id := by
    have h2 : meetingIdFor (reconcile_event (reconcile_event s now1 uid e1)
        now2 uid e2) uid e1.id = some m2.id := by
      rw [meetingIdFor, hfind2, Option.map_some']
    rw [h2] at hmidr
    exact Option.some_injective _ hmidr
  refine ⟨m1.id, hmidr, ?_, ?_, ?_, ?_, m2, hfind2, hst2⟩
  · exact notifExists_mono
      (reconcile_event_notifications_append _ now2 uid e2)
      (hday1 (not_le.mpr hfut1))
  · exact notifExists_mono
      (reconcile_event_notifications_append _ now2 uid e2)
      (hhour1 (not_le.mpr hfh1))
  · rw [← hm2id]
    exact hday2 (not_le.mpr hfut2)
  · rw [← hm2id]
    exact hhour2 (not_le.mpr hfh2)

theorem stale_reminders_accumulate_witness :
    StoreInv wStore ∧ wEvA2.id = wEvA.id ∧
    (0 : Instant) < wEvA.start_at - dayOffset ∧
    (0 : Instant) < wEvA2.start_at - dayOffset ∧
    ((∀ (s' : Store) (now' : Instant) (uid' : Nat)
        (evs : List UnifiedEvent),
      ∃ tail, (reconcile_account s' now' uid' evs).notifications
        = s'.notifications ++ tail) ∧
    (∃ mid,
      meetingIdFor (reconcile_event (reconcile_event wStore 0 1 wEvA) 0 1
        wEvA2) 1 wEvA.id = some mid ∧
      notifExists (reconcile_event (reconcile_event wStore 0 1 wEvA) 0 1
        wEvA2) mid (wEvA.start_at - dayOffset) = true ∧
      notifExists (reconcile_event (reconcile_event wStore 0 1 wEvA) 0 1
        wEvA2) mid (wEvA.start_at - hourOffset) = true ∧
      notifExists (reconcile_event (reconcile_event wStore 0 1 wEvA) 0 1
        wEvA2) mid (wEvA2.start_at - dayOffset) = true ∧
      notifExists (reconcile_event (reconcile_event wStore 0 1 wEvA) 0 1
        wEvA2) mid (wEvA2.start_at - hourOffset) = true ∧
      ∃ m', findMeeting (reconcile_event (reconcile_event wStore 0 1 wEvA)
        0 1 wEvA2) 1 wEvA.id = some m' ∧
        m'.start_at = some wEvA2.start_at)) :=
  ⟨by decide, by decide, by decide, by decide,
   stale_reminders_accumulate (by decide) 1 (by decide) (by decide)
     (by decide)⟩

end MeetBot
